import Mathlib

/-!
Shallow embedding of the px39-backend order/stock/cart flow.

Sources embedded here:
* `src/unnamed/part_012` (orders controller): `recalcTotalPriceCents`,
  `createOrder` (idempotency lookup, price check, per-item conditional stock
  decrement with best-effort rollback), `updateOrderStatus` (restock on the
  transition into "cancelled").
* `src/controllers/payments.controller.js`: `restockOrderItems`, `fakePayment`.
* `src/controllers/cart.controller.js`: `addToCart`, `updateCartItem`.
* `src/models/Order.js`, `src/models/Product.js`: document shapes.

Modelling conventions: MongoDB documents are Lean structures; a `stockBySize`
object is an association list `List (String × Int)` (`$gte` on a missing key
does not match, `$inc` on a missing key creates it); `updateOne` with an
`$elemMatch` query plus a positional `$` update is modelled as updating the
first matching array element of the first matching document; JS numbers that
hold money are `ℚ` and `Math.round` is `⌊x + 1/2⌋`; `x || d` on numbers is
`jsOr`; case-insensitive anchored regex match of colors is equality of
`String.toLower` images.  Side effects that touch no order/product/cart state
(notifications, e-mails, logging, `meta` fields) are omitted.
-/

deriving instance DecidableEq for Except

namespace PX39

/-- A product variation (`variationSchema` in `src/models/Product.js`):
a color plus per-size stock.  `salePrice`/`price` are the optional
variation-level price fields read by `recalcTotalPriceCents`
(absent on documents that never carried them, hence `Option`). -/
structure Variation where
  color : String
  stockBySize : List (String × Int)
  salePrice : Option ℚ := none
  price : Option ℚ := none
deriving Repr, DecidableEq

/-- A product document (`productSchema` in `src/models/Product.js`), restricted
to the fields the order flow reads.  `price`/`salePrice` are `Option` because
`recalcTotalPriceCents` guards each with `typeof ... === "number"`. -/
structure Product where
  pid : Nat
  variations : List Variation
  salePrice : Option ℚ := none
  price : Option ℚ := none
deriving Repr, DecidableEq

/-- An order item, as validated by `itemJoi` and stored in `orderSchema.items`.
The body keys `product`/`productId` are merged into the single `product`
field (the code only ever reads `it.product || it.productId`). -/
structure OrderItem where
  product : Option Nat := none
  name : String := ""
  color : String := ""
  size : String := ""
  quantity : Int
  price : ℚ
  image : String := ""
deriving Repr, DecidableEq

/-- An order document (`orderSchema` in `src/models/Order.js`), restricted to
the fields the order/payment flow reads or writes. -/
structure Order where
  oid : Nat
  user : Nat
  items : List OrderItem
  totalPrice : ℚ
  status : String
  payed : Bool := false
  idempotencyKey : Option String := none
deriving Repr, DecidableEq

/-- The database state the order flow touches: the `products` and `orders`
collections.  `nextOid` generates fresh ObjectIds for created orders. -/
structure Store where
  products : List Product
  orders : List Order
  nextOid : Nat := 0
deriving Repr, DecidableEq

/-- JS `Number(x) || d` on an integer-valued number: `0` is falsy. -/
def jsOr (n d : Int) : Int := if n = 0 then d else n

/-- Exact JS number multiplication on rationals.  Written via `mkRat` (rather
than the `@[irreducible]` `Rat.mul`) so that concrete runs of the model
reduce inside the kernel; `mulQ_eq` below identifies it with `*`. -/
def mulQ (a b : ℚ) : ℚ := mkRat (a.num * b.num) (a.den * b.den)

/-- Exact JS number addition on rationals; `addQ_eq` identifies it
with `+`. -/
def addQ (a b : ℚ) : ℚ :=
  mkRat (a.num * (b.den : Int) + b.num * (a.den : Int)) (a.den * b.den)

/-- JS `Math.round` (round half toward `+∞`) on an exact rational
`q = q.num / q.den`: `⌊q + 1/2⌋ = (2·num + den) fdiv (2·den)`;
`jsRound_eq_floor` below states exactly that. -/
def jsRound (q : ℚ) : Int :=
  Int.fdiv (2 * q.num + (q.den : Int)) (2 * (q.den : Int))

/-- JS truthiness of an optional string: `null`/`undefined`/`""` are falsy. -/
def strTruthy : Option String → Option String
  | some s => if s = "" then none else some s
  | none => none

/-- `a || b` for optional strings under JS truthiness. -/
def jsStrOr (a b : Option String) : Option String :=
  match strTruthy a with
  | some s => some s
  | none => strTruthy b

/-- JS `toLowerCase` (on the character range the data uses), written on the
underlying character list so that concrete runs reduce inside the kernel. -/
def lowerStr (s : String) : String := ⟨s.data.map Char.toLower⟩

/-- JS `String.prototype.trim` (ASCII whitespace suffices for the modelled
data), written on the underlying character list. -/
def trimStr (s : String) : String :=
  ⟨((s.data.dropWhile Char.isWhitespace).reverse.dropWhile
      Char.isWhitespace).reverse⟩

/-- The anchored case-insensitive color regex test
`new RegExp("^" + escapeRegExp(color) + "$", "i").test(v.color)`. -/
def colorMatches (v : Variation) (color : String) : Bool :=
  lowerStr v.color == lowerStr color

/-- Read `stockBySize[size]`: `none` when the key is absent. -/
def stockAt (v : Variation) (size : String) : Option Int :=
  (v.stockBySize.find? (fun e => e.1 == size)).map (·.2)

/-- The `$elemMatch` stock condition `stockBySize.<size> : { $gte: qty }`:
the key must exist and its value must be at least `qty`. -/
def hasStock (v : Variation) (size : String) (qty : Int) : Bool :=
  match stockAt v size with
  | some n => qty ≤ n
  | none => false

/-- `$inc` on `stockBySize.<size>`: increment the first entry with that key,
or create the key when absent (MongoDB `$inc` semantics). -/
def incSize : List (String × Int) → String → Int → List (String × Int)
  | [], size, d => [(size, d)]
  | e :: rest, size, d =>
    if e.1 == size then (e.1, e.2 + d) :: rest else e :: incSize rest size d

/-- Replace the first element satisfying `p` by its image under `f`;
`none` when no element matches (MongoDB positional `$` update). -/
def updateFirst (p : α → Bool) (f : α → α) : List α → Option (List α)
  | [] => none
  | a :: rest =>
    if p a then some (f a :: rest) else (updateFirst p f rest).map (a :: ·)

/-- The variation predicate of the decrement query in `createOrder`:
`{ color: /^c$/i, "stockBySize.<size>": { $gte: qty } }`. -/
def decMatch (color size : String) (qty : Int) (v : Variation) : Bool :=
  colorMatches v color && hasStock v size qty

/-- Add `d` to `stockBySize.<size>` of a variation. -/
def bumpVar (size : String) (d : Int) (v : Variation) : Variation :=
  { v with stockBySize := incSize v.stockBySize size d }

/-- Update the first variation of `p` that satisfies `q` using `f`
(the effect of a positional `variations.$` update on a matched document). -/
def bumpProduct (q : Variation → Bool) (f : Variation → Variation)
    (p : Product) : Product :=
  { p with variations := (updateFirst q f p.variations).getD p.variations }

/-- `Product.updateOne({_id, variations: {$elemMatch: q}}, {$inc: ...})`:
update the first document matching both conditions; return the new
collection and whether a document matched. -/
def elemMatchUpdate (db : List Product) (pid : Nat) (q : Variation → Bool)
    (f : Variation → Variation) : List Product × Bool :=
  match updateFirst (fun p => p.pid == pid && p.variations.any q)
      (bumpProduct q f) db with
  | some db' => (db', true)
  | none => (db, false)

/-- The conditional stock decrement issued per item in `createOrder`
(part_012 lines 269–284). -/
def decrementStock (db : List Product) (pid : Nat) (color size : String)
    (qty : Int) : List Product × Bool :=
  elemMatchUpdate db pid (decMatch color size qty) (bumpVar size (-qty))

/-- The unconditional stock increment used by the rollback in `createOrder`,
the restock in `updateOrderStatus` and `restockOrderItems` in
`payments.controller.js`: only the color has to match. -/
def incrementStock (db : List Product) (pid : Nat) (color size : String)
    (qty : Int) : List Product × Bool :=
  elemMatchUpdate db pid (fun v => colorMatches v color) (bumpVar size qty)

/-- Whether the decrement query of `createOrder` matches at all. -/
def canDecrement (db : List Product) (pid : Nat) (color size : String)
    (qty : Int) : Bool :=
  db.any (fun p => p.pid == pid && p.variations.any (decMatch color size qty))

/-- `Product.findById` on the modelled collection. -/
def findProduct (db : List Product) (pid : Nat) : Option Product :=
  db.find? (fun p => p.pid == pid)

/-- `p.variations.find(v => colorRegex.test(v.color))` in
`recalcTotalPriceCents`. -/
def findVariation (p : Product) (color : String) : Option Variation :=
  p.variations.find? (fun v => colorMatches v color)

/-- Product-level price fallback of `recalcTotalPriceCents`
(part_012 lines 110–120): `p.salePrice`, then `p.price`, then the client
price when truthy, else the "Price missing" error. -/
def productLevelPrice (p : Product) (pid : Nat) (clientPrice : ℚ) :
    Except String ℚ :=
  match p.salePrice with
  | some sp => .ok sp
  | none =>
    match p.price with
    | some pr => .ok pr
    | none =>
      if clientPrice ≠ 0 then .ok clientPrice
      else .error ("Price missing for product " ++ toString pid)

/-- Unit-price selection of `recalcTotalPriceCents` for one item
(part_012 lines 75–124): variation prices are consulted only when a
case-insensitively color-matching variation exists and the item color is
truthy; items without a product reference use the client price. -/
def unitPriceFor (db : List Product) (it : OrderItem) : Except String ℚ :=
  match it.product with
  | none => .ok it.price
  | some pid =>
    match findProduct db pid with
    | none => .error ("Product not found: " ++ toString pid)
    | some p =>
      match (if it.color = "" then none else findVariation p it.color) with
      | some v =>
        match v.salePrice with
        | some sp => .ok sp
        | none =>
          match v.price with
          | some pr => .ok pr
          | none => productLevelPrice p pid it.price
      | none => productLevelPrice p pid it.price

/-- `recalcTotalPriceCents` (part_012 lines 71–133): the server-side total in
integer cents, or the first per-item error. -/
def recalcTotalPriceCents (db : List Product) : List OrderItem →
    Except String Int
  | [] => .ok 0
  | it :: rest =>
    match unitPriceFor db it with
    | .error msg => .error msg
    | .ok up =>
      match recalcTotalPriceCents db rest with
      | .error msg => .error msg
      | .ok t => .ok (jsRound (mulQ up 100) * jsOr it.quantity 1 + t)

/-- A recorded successful decrement (`decremented.push({prodId, color, size,
qty})` in `createOrder`), also used to describe an attempted conditional
update. -/
structure Dec where
  prodId : Nat
  color : String
  size : String
  qty : Int
deriving Repr, DecidableEq

/-- The best-effort rollback loop of `createOrder` (part_012 lines 292–310):
one unconditional color-matched increment per recorded decrement, in
recording order. -/
def rollback (db : List Product) : List Dec → List Product
  | [] => db
  | d :: rest =>
    rollback (incrementStock db d.prodId d.color d.size d.qty).1 rest

/-- The order-item snapshot pushed onto `processedItems`
(part_012 lines 321–329). -/
def mkProcessed (it : OrderItem) : OrderItem :=
  { product := it.product, name := it.name, color := trimStr it.color,
    size := trimStr it.size, quantity := jsOr it.quantity 1, price := it.price,
    image := it.image }

/-- The 400 message of a failed conditional decrement
(part_012 lines 312–314). -/
def stockFailMsg (pid : Nat) (color size : String) : String :=
  "Not enough stock or selected variation missing for product " ++
    toString pid ++ ", color=\"" ++ color ++ "\", size=\"" ++ size ++ "\"."

/-- Outcome of the per-item stock phase of `createOrder`: the product
collection after all updates (including the rollback on failure), the
processed items on success or the 400 message on failure, and the trace of
attempted conditional updates with their success flags. -/
inductive StockRes where
  | ok (products : List Product) (processed : List OrderItem)
      (trace : List (Dec × Bool))
  | fail (products : List Product) (msg : String) (trace : List (Dec × Bool))
deriving Repr, DecidableEq

/-- The per-item stock-reservation loop of `createOrder` (part_012 lines
253–330): one conditional decrement per product-referencing item, in list
order; the first failure triggers the rollback of all decrements recorded in
`decremented` and stops the loop. -/
def stockLoop (db : List Product) (decremented : List Dec) :
    List OrderItem → StockRes
  | [] => .ok db [] []
  | it :: rest =>
    match it.product with
    | none =>
      match stockLoop db decremented rest with
      | .ok ps proc tr => .ok ps (mkProcessed it :: proc) tr
      | .fail ps msg tr => .fail ps msg tr
    | some pid =>
      let quantity := jsOr it.quantity 1
      let color := trimStr it.color
      let size := trimStr it.size
      let step := decrementStock db pid color size quantity
      let d : Dec := ⟨pid, color, size, quantity⟩
      -- `matchedCount === 0 || modifiedCount === 0` counts as failure; an
      -- `$inc` by a nonzero amount modifies every matched document.
      if step.2 && quantity != 0 then
        match stockLoop step.1 (decremented ++ [d]) rest with
        | .ok ps proc tr => .ok ps (mkProcessed it :: proc) ((d, true) :: tr)
        | .fail ps msg tr => .fail ps msg ((d, true) :: tr)
      else
        .fail (rollback db decremented) (stockFailMsg pid color size)
          [(d, false)]

/-- HTTP-level responses of the modelled handlers (status codes in the
constructor doc strings; response bodies beyond the order/message are
omitted). -/
inductive HResp where
  /-- 200, `{ order: existing }` (idempotent `createOrder` hit). -/
  | okOrder (o : Order)
  /-- 201, `{ order }` (order created). -/
  | created (o : Order)
  /-- 400, `{ message }`. -/
  | badRequest (msg : String)
  /-- 404, `{ message }`. -/
  | notFound (msg : String)
  /-- 403, `{ message: "Forbidden" }`. -/
  | forbidden
  /-- 200, `{ message, order }` (`"Already payed"`). -/
  | okMsg (msg : String) (o : Order)
  /-- 200, `{ ok: true, order }` (fake payment success). -/
  | paymentOk (o : Order)
  /-- 400, `{ ok: false, message: "Simulated payment failure", order }`. -/
  | paymentFailed (o : Order)
  /-- 200, `{ order: updated }` (`updateOrderStatus`). -/
  | statusUpdated (o : Order)
deriving Repr, DecidableEq

/-- The `createOrder` request body after Joi coercion, restricted to what the
modelled flow reads.  `headerKey` is the `idempotency-key` request header
(Node lowercases incoming header names, so the second header lookup in the
code never fires).  `shippingOk` abstracts the phone/shipping validation
(`isValidPhone` via libphonenumber plus `validateShippingMinimal`), which
depends only on shipping fields the rest of the flow never touches; when it
is false the handler answers 400 before touching any state. -/
structure CreateOrderReq where
  items : List OrderItem
  totalPrice : ℚ
  idempotencyKey : Option String := none
  headerKey : Option String := none
  shippingOk : Bool := true
deriving Repr, DecidableEq

/-- The item constraints of `itemJoi` that the flow depends on:
`quantity` is an integer at least 1 and `price` is nonnegative. -/
def itemValid (it : OrderItem) : Bool :=
  1 ≤ it.quantity && 0 ≤ it.price

/-- The body constraints of `createOrderJoi` that the flow depends on. -/
def reqValid (r : CreateOrderReq) : Bool :=
  !r.items.isEmpty && r.items.all itemValid && 0 ≤ r.totalPrice

/-- The resolved idempotency key:
`idempotencyKey || req.headers["idempotency-key"]`. -/
def keyOf (r : CreateOrderReq) : Option String :=
  jsStrOr r.idempotencyKey r.headerKey

/-- `Order.findOne({ idempotencyKey: key, user: userId })`. -/
def findExisting (orders : List Order) (userId : Nat) (key : String) :
    Option Order :=
  orders.find? (fun o => o.idempotencyKey == some key && o.user == userId)

/-- The idempotency lookup of `createOrder` (part_012 lines 188–201): the
existing order for the resolved key and this user, when a key was given. -/
def idemHit (st : Store) (userId : Nat) (r : CreateOrderReq) : Option Order :=
  (keyOf r).bind (findExisting st.orders userId)

/-- `Number((calcCents / 100).toFixed(2))`: exact on integer cents. -/
def centsToPrice (c : Int) : ℚ := mkRat c 100

/-- `createOrder` (part_012 lines 151–414).  Modelled for an authenticated
user; Joi validation is `reqValid`, phone/shipping validation is the
`shippingOk` flag (both failure messages collapse to one 400).  Returns the
HTTP response and the new store. -/
def createOrder (st : Store) (userId : Nat) (r : CreateOrderReq) :
    HResp × Store :=
  if ¬ reqValid r then (.badRequest "Invalid payload", st)
  else if ¬ r.shippingOk then
    (.badRequest "Phone number appears invalid.", st)
  else
    match idemHit st userId r with
    | some existing => (.okOrder existing, st)
    | none =>
      match recalcTotalPriceCents st.products r.items with
      | .error msg => (.badRequest msg, st)
      | .ok calcCents =>
        if jsRound (mulQ r.totalPrice 100) ≠ calcCents then
          (.badRequest "totalPrice mismatch", st)
        else
          match stockLoop st.products [] r.items with
          | .fail ps msg _ => (.badRequest msg, { st with products := ps })
          | .ok ps processed _ =>
            let order : Order :=
              { oid := st.nextOid, user := userId, items := processed,
                totalPrice := centsToPrice calcCents, status := "pending",
                payed := false, idempotencyKey := keyOf r }
            (.created order,
              { products := ps, orders := st.orders ++ [order],
                nextOid := st.nextOid + 1 })
/-- `order.save()` after mutating a fetched order: replace the stored
document with the mutated one (matched by `_id`). -/
def replaceOrder (orders : List Order) (oid : Nat) (o' : Order) :
    List Order :=
  orders.map (fun o => if o.oid == oid then o' else o)

/-- `Order.findById`. -/
def findOrder (orders : List Order) (oid : Nat) : Option Order :=
  orders.find? (fun o => o.oid == oid)

/-- The restock loop shared (verbatim, up to logging) by `updateOrderStatus`
(part_012 lines 507–535) and `restockOrderItems` in
`payments.controller.js` (lines 15–34): for each item with a product
reference, a non-empty trimmed size and positive quantity, increment the
first color-matching variation's `stockBySize[size]` by the quantity;
failures to match are logged and skipped. -/
def restockItems (db : List Product) : List OrderItem → List Product
  | [] => db
  | it :: rest =>
    match it.product with
    | none => restockItems db rest
    | some pid =>
      let color := trimStr it.color
      let size := trimStr it.size
      let qty := jsOr it.quantity 0
      if size = "" ∨ qty ≤ 0 then restockItems db rest
      else restockItems (incrementStock db pid color size qty).1 rest

/-- The status whitelist of `updateOrderStatus` (part_012 line 494). -/
def validStatuses : List String :=
  ["pending", "shipped", "delivered", "cancelled"]

/-- `updateOrderStatus` (part_012 lines 484–578), for a syntactically valid
order id: validate the status, restock exactly when moving into
`"cancelled"` from a different status, then save the new status. -/
def updateOrderStatus (st : Store) (oid : Nat) (status : String) :
    HResp × Store :=
  if ¬ validStatuses.contains status then (.badRequest "Invalid status", st)
  else
    match findOrder st.orders oid with
    | none => (.notFound "Order not found", st)
    | some o =>
      let products' :=
        if status == "cancelled" && o.status != "cancelled" then
          restockItems st.products o.items
        else st.products
      let o' := { o with status := status }
      (.statusUpdated o',
        { st with products := products',
                  orders := replaceOrder st.orders oid o' })

/-- `fakePayment` (`payments.controller.js` lines 40–142), for an
authenticated user and a syntactically valid order id.  `simulate` is the
request's simulate string; anything other than `"success"` takes the
failure path (cancel + restock). -/
def fakePayment (st : Store) (userId : Nat) (isAdmin : Bool) (orderId : Nat)
    (simulate : String) : HResp × Store :=
  match findOrder st.orders orderId with
  | none => (.notFound "Order not found", st)
  | some o =>
    if o.user ≠ userId ∧ isAdmin = false then (.forbidden, st)
    else if o.payed then (.okMsg "Already payed" o, st)
    else if simulate == "success" then
      let o' := { o with payed := true }
      (.paymentOk o', { st with orders := replaceOrder st.orders orderId o' })
    else
      let o' := { o with payed := false, status := "cancelled" }
      (.paymentFailed o',
        { st with orders := replaceOrder st.orders orderId o',
                  products := restockItems st.products o.items })

/-! ### Cart (`src/controllers/cart.controller.js`)

The `Cart` model file is not part of the provided sources; carts are
modelled as plain lists of items with the fields the controller reads and
writes, and `cart.save()` as storing the list unchanged (no schema-level
clamping is assumed). -/

/-- A cart line item as written by `addToCart`. -/
structure CartItem where
  product : Nat
  color : String
  size : String
  quantity : ℚ
deriving Repr, DecidableEq

/-- `addToCart` (cart.controller.js lines 13–36): 404 (`none`) when the
product does not exist; merge into the first item with the same product,
color and size (exact equality), clamping the merged quantity to at least 1;
otherwise push a new item with the request quantity as given. -/
def addToCart (products : List Product) (cart : List CartItem)
    (productId : Nat) (color size : String) (quantity : ℚ) :
    Option (List CartItem) :=
  if ¬ products.any (fun p => p.pid == productId) then none
  else
    some ((updateFirst
        (fun i => i.product == productId && i.color == color && i.size == size)
        (fun i => { i with quantity := max 1 (addQ i.quantity quantity) })
        cart).getD (cart ++ [⟨productId, color, size, quantity⟩]))

/-- Outcome of `updateCartItem`. -/
inductive CartRes where
  /-- 400, `{ message: "Invalid item index" }`. -/
  | badIndex
  /-- 200, the saved cart. -/
  | updated (items : List CartItem)
deriving Repr, DecidableEq

/-- `updateCartItem` (cart.controller.js lines 39–67) on a found cart, for an
integer index and a numeric quantity: reject out-of-range indices, remove
the item when the quantity is at most 0, otherwise clamp it to at least 1. -/
def updateCartItem (items : List CartItem) (idx : Int) (q : ℚ) : CartRes :=
  if idx < 0 ∨ (items.length : Int) ≤ idx then .badIndex
  else if q ≤ 0 then .updated (items.eraseIdx idx.toNat)
  else
    match items.get? idx.toNat with
    | none => .badIndex
    | some item =>
      .updated (items.set idx.toNat { item with quantity := max 1 q })

/-! ### Observation functions for the theorems -/

/-- Total stock of size `sz` across the variations of one document whose
color lowercases to `cc` (missing keys count 0). -/
def varClassStock : List Variation → String → String → Int
  | [], _, _ => 0
  | v :: rest, cc, sz =>
    (if lowerStr v.color = cc then (stockAt v sz).getD 0 else 0) +
      varClassStock rest cc sz

/-- Total stock of size `sz`, over all documents with id `pid`, in variations
whose color lowercases to `cc`: the product/color/size granularity at which
the order flow addresses stock. -/
def classStock : List Product → Nat → String → String → Int
  | [], _, _, _ => 0
  | p :: rest, pid, cc, sz =>
    (if p.pid = pid then varClassStock p.variations cc sz else 0) +
      classStock rest pid cc sz

/-- Whether some document with id `pid` has a variation matching `color`
case-insensitively: exactly the match condition of `incrementStock`. -/
def productHasColor (db : List Product) (pid : Nat) (color : String) : Bool :=
  db.any (fun p => p.pid == pid &&
    p.variations.any (fun v => colorMatches v color))

/-- The id/color skeleton of the collection; stock updates never change it. -/
def shape (db : List Product) : List (Nat × List String) :=
  db.map (fun p => (p.pid, p.variations.map (·.color)))

/-- The conditional updates `createOrder` would address, one per
product-referencing item, in item order. -/
def productDecs (items : List OrderItem) : List Dec :=
  items.filterMap (fun it =>
    it.product.map (fun pid =>
      ⟨pid, trimStr it.color, trimStr it.size, jsOr it.quantity 1⟩))

/-- Net effect of rolling back `decs` on `classStock db pid cc sz`: each
recorded decrement whose increment finds a color-matching variation adds its
quantity back at its own product/color/size key. -/
def incDelta (db : List Product) : List Dec → Nat → String → String → Int
  | [], _, _, _ => 0
  | d :: rest, pid, cc, sz =>
    (if pid = d.prodId ∧ cc = lowerStr d.color ∧ sz = d.size ∧
        productHasColor db d.prodId d.color = true then d.qty else 0) +
      incDelta db rest pid cc sz

/-- Net effect of the restock loop on `classStock db pid cc sz`. -/
def restockDelta (db : List Product) :
    List OrderItem → Nat → String → String → Int
  | [], _, _, _ => 0
  | it :: rest, pid, cc, sz =>
    (match it.product with
    | none => 0
    | some pid' =>
      if pid = pid' ∧ cc = lowerStr (trimStr it.color) ∧ sz = trimStr it.size ∧
          trimStr it.size ≠ "" ∧ 0 < jsOr it.quantity 0 ∧
          productHasColor db pid' (trimStr it.color) = true then
        jsOr it.quantity 0
      else 0) +
      restockDelta db rest pid cc sz

/-- Every stock entry of every variation is nonnegative. -/
def nonnegDB (db : List Product) : Prop :=
  ∀ p ∈ db, ∀ v ∈ p.variations, ∀ e ∈ v.stockBySize, 0 ≤ e.2

instance : DecidablePred nonnegDB := by
  intro db; unfold nonnegDB; infer_instance

/-- The product collection carried by a stock-phase outcome. -/
def StockRes.products : StockRes → List Product
  | .ok ps _ _ => ps
  | .fail ps _ _ => ps

/-- One state-changing operation of the order/stock flow, as dispatched by
the HTTP layer. -/
inductive Op where
  | create (userId : Nat) (r : CreateOrderReq)
  | setStatus (oid : Nat) (status : String)
  | pay (userId : Nat) (isAdmin : Bool) (orderId : Nat) (simulate : String)
deriving Repr, DecidableEq

/-- Dispatch one operation against the store. -/
def applyOp (st : Store) : Op → Store
  | .create userId r => (createOrder st userId r).2
  | .setStatus oid status => (updateOrderStatus st oid status).2
  | .pay userId isAdmin orderId simulate =>
    (fakePayment st userId isAdmin orderId simulate).2

/-- Run a sequence of order-flow operations. -/
def runOps (st : Store) : List Op → Store
  | [] => st
  | op :: rest => runOps (applyOp st op) rest

/-- The trace of attempted conditional updates carried by a stock-phase
outcome. -/
def StockRes.trace : StockRes → List (Dec × Bool)
  | .ok _ _ tr => tr
  | .fail _ _ tr => tr

/-- The unit-price preference chain as the (amended) spec sentence words it:
`variation.salePrice`, then `variation.price`, then `product.salePrice`,
then `product.price`, then the client-provided price when it is nonzero —
a product item whose prices are all absent and whose client price is 0 is
rejected as "Price missing"; items without a product reference use the
client price directly.  Stated independently of `unitPriceFor` (as a
priority list) to compare the two. -/
def specUnitPrice (db : List Product) (it : OrderItem) : Except String ℚ :=
  match it.product with
  | none => .ok it.price
  | some pid =>
    match findProduct db pid with
    | none => .error ("Product not found: " ++ toString pid)
    | some p =>
      match ([(if it.color = "" then none else findVariation p it.color).bind
            (fun v => v.salePrice),
          (if it.color = "" then none else findVariation p it.color).bind
            (fun v => v.price),
          p.salePrice, p.price,
          if it.price ≠ 0 then some it.price else none].findSome? id) with
      | some q => .ok q
      | none => .error ("Price missing for product " ++ toString pid)

/-- The unit-price preference chain exactly as claim C2 states it: the final
fallback is the client-provided price, unconditionally. -/
def claimUnitPrice (db : List Product) (it : OrderItem) : Except String ℚ :=
  match it.product with
  | none => .ok it.price
  | some pid =>
    match findProduct db pid with
    | none => .error ("Product not found: " ++ toString pid)
    | some p =>
      match ([(if it.color = "" then none else findVariation p it.color).bind
            (fun v => v.salePrice),
          (if it.color = "" then none else findVariation p it.color).bind
            (fun v => v.price),
          p.salePrice, p.price, some it.price].findSome? id) with
      | some q => .ok q
      | none => .error ("Price missing for product " ++ toString pid)

/-- The recomputed total exactly as claim C2 states it, built on
`claimUnitPrice`. -/
def claimTotalCents (db : List Product) : List OrderItem →
    Except String Int
  | [] => .ok 0
  | it :: rest =>
    match claimUnitPrice db it with
    | .error msg => .error msg
    | .ok up =>
      match claimTotalCents db rest with
      | .error msg => .error msg
      | .ok t => .ok (jsRound (mulQ up 100) * jsOr it.quantity 1 + t)

/-! ### A small-step view of the stock phase (for the concurrency claim)

Each `threadStep` performs at most one `updateOne` — the database's unit of
atomicity; nothing in the code (no transaction, session or lock) constrains
how the steps of two in-flight requests interleave, so any schedule is a
possible execution. -/

/-- Phase of one in-flight `createOrder` stock phase. -/
inductive TPhase where
  | running
  | rolling
  | committed
  | aborted
deriving Repr, DecidableEq

/-- One in-flight `createOrder` stock phase: items still to process, the
recorded decrements, the rollback queue, and the phase. -/
structure Thread where
  pending : List OrderItem
  decremented : List Dec
  toUndo : List Dec
  phase : TPhase
deriving Repr, DecidableEq

/-- One atomic step of a thread: a single conditional `updateOne` of the
stock loop, a single rollback `updateOne`, or a bookkeeping transition. -/
def threadStep (db : List Product) (t : Thread) : List Product × Thread :=
  match t.phase with
  | .committed => (db, t)
  | .aborted => (db, t)
  | .rolling =>
    match t.toUndo with
    | [] => (db, { t with phase := .aborted })
    | d :: ds =>
      ((incrementStock db d.prodId d.color d.size d.qty).1,
        { t with toUndo := ds })
  | .running =>
    match t.pending with
    | [] => (db, { t with phase := .committed })
    | it :: rest =>
      match it.product with
      | none => (db, { t with pending := rest })
      | some pid =>
        if (decrementStock db pid (trimStr it.color) (trimStr it.size)
              (jsOr it.quantity 1)).2 && jsOr it.quantity 1 != 0 then
          ((decrementStock db pid (trimStr it.color) (trimStr it.size)
              (jsOr it.quantity 1)).1,
            { t with
                pending := rest
                decremented := t.decremented ++
                  [⟨pid, trimStr it.color, trimStr it.size,
                    jsOr it.quantity 1⟩] })
        else
          (db, { t with
                  pending := []
                  phase := .rolling
                  toUndo := t.decremented })

/-- A fresh thread for one validated request's items. -/
def mkThread (items : List OrderItem) : Thread :=
  ⟨items, [], [], .running⟩

/-- Run one thread alone for `n` steps. -/
def runAlone (db : List Product) (t : Thread) : Nat → List Product × Thread
  | 0 => (db, t)
  | n + 1 =>
    runAlone (threadStep db t).1 (threadStep db t).2 n

/-- Run two threads under a schedule; `true` steps the first thread.  Every
schedule is a possible execution: no coordination restricts it. -/
def runSched (db : List Product) (t1 t2 : Thread) :
    List Bool → List Product × Thread × Thread
  | [] => (db, t1, t2)
  | b :: rest =>
    if b then
      runSched (threadStep db t1).1 (threadStep db t1).2 t2 rest
    else
      runSched (threadStep db t2).1 t1 (threadStep db t2).2 rest

/-! ### Concrete fixtures used by the witnesses and counterexamples -/

def vRedM : Variation := { color := "Red", stockBySize := [("M", 3), ("L", 1)] }

def vBlueM : Variation := { color := "Blue", stockBySize := [("M", 1)] }

def prodA : Product := { pid := 1, variations := [vRedM], price := some 10 }

def prodB : Product := { pid := 2, variations := [vBlueM], price := some 5 }

def itA4 : OrderItem :=
  { product := some 1, color := "red", size := "M", quantity := 4, price := 10 }

def itA2 : OrderItem :=
  { product := some 1, color := "red", size := "M", quantity := 2, price := 10 }

def itB2 : OrderItem :=
  { product := some 2, color := "blue", size := "M", quantity := 2, price := 5 }

def itA1 : OrderItem :=
  { product := some 1, color := "red", size := "M", quantity := 1, price := 10 }

def itB1 : OrderItem :=
  { product := some 2, color := "blue", size := "M", quantity := 1, price := 5 }

def stAB : Store := { products := [prodA, prodB], orders := [], nextOid := 0 }

def ordW : Order :=
  { oid := 5, user := 7, items := [itA2], totalPrice := 20,
    status := "pending", idempotencyKey := some "abc" }

def stW : Store := { products := [prodA, prodB], orders := [ordW], nextOid := 6 }

def reqW : CreateOrderReq :=
  { items := [itA2], totalPrice := 20, idempotencyKey := some "abc" }

def ordPend : Order :=
  { oid := 9, user := 7, items := [itA2], totalPrice := 20,
    status := "pending" }

def stPend : Store :=
  { products := [prodA, prodB], orders := [ordPend], nextOid := 10 }

def ordPayed : Order :=
  { oid := 3, user := 7, items := [itA2], totalPrice := 20,
    status := "pending", payed := true }

def stPayed : Store :=
  { products := [prodA, prodB], orders := [ordPayed], nextOid := 4 }

/-- A product document with no usable prices (the schema requires `price`,
but nothing at read time guarantees it; `recalcTotalPriceCents` explicitly
handles its absence). -/
def pxNoPrice : Product := { pid := 1, variations := [vRedM] }

def itZero : OrderItem :=
  { product := some 1, color := "red", size := "M", quantity := 1, price := 0 }

def reqZero : CreateOrderReq := { items := [itZero], totalPrice := 0 }

def stZero : Store := { products := [pxNoPrice], orders := [], nextOid := 0 }

/-- Two-product store with one unit each, for the interleaving scenario. -/
def db8 : List Product :=
  [{ pid := 1, variations := [{ color := "Red", stockBySize := [("M", 1)] }],
     price := some 10 },
   { pid := 2, variations := [{ color := "Blue", stockBySize := [("M", 1)] }],
     price := some 5 }]

/-- Order 1 takes product 1 then product 2; order 2 the reverse. -/
def tO1 : Thread := mkThread [itA1, itB1]

def tO2 : Thread := mkThread [itB1, itA1]

/-- Alternating schedule: the two stock phases interleave step by step. -/
def schedI : List Bool :=
  [true, false, true, false, true, false, true, false, true, false]

def schedS12 : List Bool := List.replicate 6 true ++ List.replicate 6 false

def schedS21 : List Bool := List.replicate 6 false ++ List.replicate 6 true

/-! ### Lemmas about the update primitives -/

theorem updateFirst_eq_none {α : Type} {p : α → Bool} {f : α → α}
    {l : List α} : updateFirst p f l = none ↔ ∀ a ∈ l, p a = false := by
  induction l with
  | nil => simp [updateFirst]
  | cons a rest ih => by_cases h : p a <;> simp [updateFirst, h, ih]

theorem updateFirst_isSome {α : Type} (p : α → Bool) (f : α → α)
    (l : List α) : (updateFirst p f l).isSome = l.any p := by
  induction l with
  | nil => simp [updateFirst]
  | cons a rest ih => by_cases h : p a <;> simp [updateFirst, h, ih]

theorem elemMatchUpdate_matched (db : List Product) (pid : Nat)
    (q : Variation → Bool) (f : Variation → Variation) :
    (elemMatchUpdate db pid q f).2 =
      db.any (fun p => p.pid == pid && p.variations.any q) := by
  have h := updateFirst_isSome
    (fun p => p.pid == pid && p.variations.any q) (bumpProduct q f) db
  unfold elemMatchUpdate
  cases hu : updateFirst (fun p => p.pid == pid && p.variations.any q)
      (bumpProduct q f) db with
  | none => rw [hu] at h; simpa using h.symm
  | some db' => rw [hu] at h; simpa using h.symm

theorem elemMatchUpdate_unmatched {db : List Product} {pid : Nat}
    {q : Variation → Bool} {f : Variation → Variation}
    (h : (elemMatchUpdate db pid q f).2 = false) :
    (elemMatchUpdate db pid q f).1 = db := by
  unfold elemMatchUpdate at *
  cases hu : updateFirst (fun p => p.pid == pid && p.variations.any q)
      (bumpProduct q f) db <;> simp_all

theorem hasStock_iff {v : Variation} {size : String} {qty : Int} :
    hasStock v size qty = true ↔
      ∃ n, stockAt v size = some n ∧ qty ≤ n := by
  unfold hasStock
  cases h : stockAt v size <;> simp

/-- C1's match condition, spelled out: the decrement query matches exactly
when some document with this id has a variation that matches the color
case-insensitively and holds at least `qty` of this size. -/
theorem decrementStock_matched_iff (db : List Product) (pid : Nat)
    (color size : String) (qty : Int) :
    (decrementStock db pid color size qty).2 = true ↔
      ∃ p ∈ db, p.pid = pid ∧ ∃ v ∈ p.variations,
        colorMatches v color = true ∧
          ∃ n, stockAt v size = some n ∧ qty ≤ n := by
  unfold decrementStock
  rw [elemMatchUpdate_matched]
  simp only [List.any_eq_true, Bool.and_eq_true, beq_iff_eq, decMatch,
    hasStock_iff]

theorem find_incSize_self (m : List (String × Int)) (size : String)
    (d : Int) :
    ((incSize m size d).find? (fun e => e.1 == size)).map (·.2) =
      some (((m.find? (fun e => e.1 == size)).map (·.2)).getD 0 + d) := by
  induction m with
  | nil => simp [incSize]
  | cons e rest ih =>
    by_cases h : e.1 == size
    · simp [incSize, h, List.find?_cons_of_pos]
    · simp only [incSize, h]
      simpa [List.find?_cons_of_neg, h] using ih

theorem find_incSize_ne (m : List (String × Int)) {size sz : String}
    (d : Int) (hne : sz ≠ size) :
    (incSize m size d).find? (fun e => e.1 == sz) =
      m.find? (fun e => e.1 == sz) := by
  induction m with
  | nil =>
    have h0 : (size == sz) = false := by simp [Ne.symm hne]
    simp [incSize, List.find?, h0]
  | cons e rest ih =>
    by_cases h : e.1 == size
    · have h' : (e.1 == sz) = false := by
        simp only [beq_iff_eq] at h ⊢
        simp [h, Ne.symm hne]
      simp [incSize, h, List.find?_cons_of_neg, h']
    · by_cases h2 : e.1 == sz <;>
        simp [incSize, h, List.find?_cons_of_pos, List.find?_cons_of_neg,
          h2, ih]

theorem stockAt_bumpVar_self (v : Variation) (size : String) (d : Int) :
    stockAt (bumpVar size d v) size =
      some ((stockAt v size).getD 0 + d) := by
  simpa [stockAt, bumpVar] using find_incSize_self v.stockBySize size d

theorem stockAt_bumpVar_ne (v : Variation) {size sz : String} (d : Int)
    (hne : sz ≠ size) : stockAt (bumpVar size d v) sz = stockAt v sz := by
  simp [stockAt, bumpVar, find_incSize_ne v.stockBySize d hne]

/-- Updating the first `q`-matching variation by a `$inc` of `d` at `size`
moves `varClassStock` by `d` at the matched color class and `size`, and
nowhere else. -/
theorem varClassStock_updateFirst {q : Variation → Bool} {size key : String}
    {d : Int} {vs vs' : List Variation}
    (hq : ∀ v, q v = true → lowerStr v.color = key)
    (h : updateFirst q (bumpVar size d) vs = some vs') (cc sz : String) :
    varClassStock vs' cc sz =
      varClassStock vs cc sz + (if cc = key ∧ sz = size then d else 0) := by
  induction vs generalizing vs' with
  | nil => simp [updateFirst] at h
  | cons v rest ih =>
    rw [updateFirst] at h
    by_cases hv : q v
    · rw [if_pos hv, Option.some.injEq] at h
      subst h
      have hkey := hq v hv
      rw [varClassStock, varClassStock]
      have hcolor : (bumpVar size d v).color = v.color := rfl
      by_cases hcc : lowerStr v.color = cc
      · by_cases hsz : sz = size
        · subst hsz
          rw [hcolor, if_pos hcc, if_pos hcc, stockAt_bumpVar_self,
            if_pos ⟨hcc ▸ hkey, rfl⟩]
          simp only [Option.getD_some]
          ring
        · rw [hcolor, if_pos hcc, if_pos hcc, stockAt_bumpVar_ne v d hsz,
            if_neg (by simp [hsz])]
          ring
      · rw [hcolor, if_neg hcc, if_neg hcc,
          if_neg (by rintro ⟨h1, h2⟩; exact hcc (by rw [hkey, h1]))]
        ring
    · rw [if_neg hv] at h
      rcases Option.map_eq_some'.mp h with ⟨rest', hrest, hvs⟩
      subst hvs
      rw [varClassStock, varClassStock, ih hrest]
      ring

/-- Effect on `classStock` of updating the first matched document, stated on
the underlying `updateFirst`. -/
theorem classStock_updateFirst {pid : Nat} {q : Variation → Bool}
    {size key : String} {d : Int} {db db' : List Product}
    (hq : ∀ v, q v = true → lowerStr v.color = key)
    (h : updateFirst (fun p => p.pid == pid && p.variations.any q)
      (bumpProduct q (bumpVar size d)) db = some db')
    (pid' : Nat) (cc sz : String) :
    classStock db' pid' cc sz =
      classStock db pid' cc sz +
        (if pid' = pid ∧ cc = key ∧ sz = size then d else 0) := by
  induction db generalizing db' with
  | nil => simp [updateFirst] at h
  | cons p rest ih =>
    rw [updateFirst] at h
    by_cases hp : p.pid == pid && p.variations.any q
    · rw [if_pos hp, Option.some.injEq] at h
      subst h
      have hmatch := (Bool.and_eq_true _ _).mp hp
      have hpid : p.pid = pid := by simpa using hmatch.1
      have hvar : (updateFirst q (bumpVar size d) p.variations).isSome := by
        rw [updateFirst_isSome]; exact hmatch.2
      rcases Option.isSome_iff_exists.mp hvar with ⟨vs', hvs⟩
      have hbump : (bumpProduct q (bumpVar size d) p).variations = vs' := by
        simp [bumpProduct, hvs]
      rw [classStock, classStock]
      have hpid2 : (bumpProduct q (bumpVar size d) p).pid = p.pid := rfl
      by_cases hp' : p.pid = pid'
      · rw [hpid2, if_pos hp', if_pos hp', hbump,
          varClassStock_updateFirst hq hvs cc sz,
          if_congr (show (pid' = pid ∧ cc = key ∧ sz = size) ↔
            (cc = key ∧ sz = size) by
              constructor
              · exact fun hh => hh.2
              · exact fun hh => ⟨by rw [← hp', hpid], hh⟩) rfl rfl]
        ring
      · rw [hpid2, if_neg hp', if_neg hp',
          if_neg (by rintro ⟨h1, _⟩; exact hp' (by rw [hpid, h1]))]
        ring
    · rw [if_neg hp] at h
      rcases Option.map_eq_some'.mp h with ⟨rest', hrest, hdb⟩
      subst hdb
      rw [classStock, classStock, ih hrest]
      ring

/-- Effect of a conditional `$inc` update on `classStock`: `d` lands exactly
at the matched document id, the matched color class, and the updated size. -/
theorem classStock_elemMatchUpdate {db : List Product} {pid : Nat}
    {q : Variation → Bool} {size key : String} {d : Int}
    (hq : ∀ v, q v = true → lowerStr v.color = key)
    (h : (elemMatchUpdate db pid q (bumpVar size d)).2 = true)
    (pid' : Nat) (cc sz : String) :
    classStock (elemMatchUpdate db pid q (bumpVar size d)).1 pid' cc sz =
      classStock db pid' cc sz +
        (if pid' = pid ∧ cc = key ∧ sz = size then d else 0) := by
  unfold elemMatchUpdate at *
  cases hu : updateFirst (fun p => p.pid == pid && p.variations.any q)
      (bumpProduct q (bumpVar size d)) db with
  | none => rw [hu] at h; simp at h
  | some db2 => simpa using classStock_updateFirst hq hu pid' cc sz

theorem map_color_updateFirst {q : Variation → Bool}
    {f : Variation → Variation} (hf : ∀ v, (f v).color = v.color)
    {vs vs' : List Variation} (h : updateFirst q f vs = some vs') :
    vs'.map (·.color) = vs.map (·.color) := by
  induction vs generalizing vs' with
  | nil => simp [updateFirst] at h
  | cons v rest ih =>
    rw [updateFirst] at h
    by_cases hv : q v
    · rw [if_pos hv, Option.some.injEq] at h
      subst h
      simp [hf v]
    · rw [if_neg hv] at h
      rcases Option.map_eq_some'.mp h with ⟨rest', hrest, hvs⟩
      subst hvs
      simp [ih hrest]

theorem shape_updateFirst {P : Product → Bool} {q : Variation → Bool}
    {size : String} {d : Int} {db db' : List Product}
    (h : updateFirst P (bumpProduct q (bumpVar size d)) db = some db') :
    shape db' = shape db := by
  induction db generalizing db' with
  | nil => simp [updateFirst] at h
  | cons p rest ih =>
    rw [updateFirst] at h
    by_cases hp : P p
    · rw [if_pos hp, Option.some.injEq] at h
      subst h
      have hcols : (bumpProduct q (bumpVar size d) p).variations.map (·.color)
          = p.variations.map (·.color) := by
        unfold bumpProduct
        cases hv : updateFirst q (bumpVar size d) p.variations with
        | none => rfl
        | some vs' =>
          simpa [hv] using
            @map_color_updateFirst q (bumpVar size d) (fun v => rfl)
              p.variations vs' hv
      simp [shape, hcols]
      rfl
    · rw [if_neg hp] at h
      rcases Option.map_eq_some'.mp h with ⟨rest', hrest, hdb⟩
      subst hdb
      simp [shape] at ih ⊢
      exact ih hrest

/-- Any `$inc`-style update leaves the id/color skeleton unchanged. -/
theorem shape_elemMatchUpdate (db : List Product) (pid : Nat)
    (q : Variation → Bool) (size : String) (d : Int) :
    shape (elemMatchUpdate db pid q (bumpVar size d)).1 = shape db := by
  unfold elemMatchUpdate
  cases hu : updateFirst (fun p => p.pid == pid && p.variations.any q)
      (bumpProduct q (bumpVar size d)) db with
  | none => rfl
  | some db2 => exact shape_updateFirst hu

theorem any_color_map (vs : List Variation) (c : String) :
    (vs.map (fun v => v.color)).any (fun col => lowerStr col == lowerStr c) =
      vs.any (fun v => colorMatches v c) := by
  induction vs with
  | nil => rfl
  | cons v rest ih => simp [List.any_cons, ih, colorMatches]

theorem productHasColor_shape (db : List Product) (pid : Nat)
    (color : String) :
    productHasColor db pid color =
      (shape db).any (fun e => e.1 == pid &&
        e.2.any (fun col => lowerStr col == lowerStr color)) := by
  induction db with
  | nil => rfl
  | cons p rest ih =>
    simp only [productHasColor, shape, List.map_cons, List.any_cons] at *
    rw [← ih, any_color_map]

theorem productHasColor_congr {db db' : List Product}
    (h : shape db = shape db') (pid : Nat) (color : String) :
    productHasColor db pid color = productHasColor db' pid color := by
  rw [productHasColor_shape, productHasColor_shape, h]

theorem incDelta_congr {db db' : List Product} (h : shape db = shape db')
    (decs : List Dec) (pid : Nat) (cc sz : String) :
    incDelta db decs pid cc sz = incDelta db' decs pid cc sz := by
  induction decs with
  | nil => rfl
  | cons d rest ih =>
    rw [incDelta, incDelta, ih, productHasColor_congr h]

theorem restockDelta_congr {db db' : List Product} (h : shape db = shape db')
    (items : List OrderItem) (pid : Nat) (cc sz : String) :
    restockDelta db items pid cc sz = restockDelta db' items pid cc sz := by
  induction items with
  | nil => rfl
  | cons it rest ih =>
    cases hip : it.product with
    | none => simp [restockDelta, hip, ih]
    | some pid' => simp [restockDelta, hip, ih, productHasColor_congr h]

theorem incrementStock_matched (db : List Product) (pid : Nat)
    (color size : String) (qty : Int) :
    (incrementStock db pid color size qty).2 =
      productHasColor db pid color := by
  rw [incrementStock, elemMatchUpdate_matched]; rfl

theorem incrementStock_unmatched {db : List Product} {pid : Nat}
    {color size : String} {qty : Int}
    (h : productHasColor db pid color = false) :
    (incrementStock db pid color size qty).1 = db := by
  refine elemMatchUpdate_unmatched ?_
  rw [← incrementStock, incrementStock_matched]
  exact h

theorem classStock_incrementStock {db : List Product} {pid : Nat}
    {color size : String} {qty : Int}
    (h : productHasColor db pid color = true) (pid' : Nat) (cc sz : String) :
    classStock (incrementStock db pid color size qty).1 pid' cc sz =
      classStock db pid' cc sz +
        (if pid' = pid ∧ cc = lowerStr color ∧ sz = size then qty else 0) := by
  refine classStock_elemMatchUpdate (fun v hv => ?_) ?_ pid' cc sz
  · simpa [colorMatches] using hv
  · rw [← incrementStock, incrementStock_matched]; exact h

theorem decrementStock_unmatched {db : List Product} {pid : Nat}
    {color size : String} {qty : Int}
    (h : (decrementStock db pid color size qty).2 = false) :
    (decrementStock db pid color size qty).1 = db :=
  elemMatchUpdate_unmatched h

theorem classStock_decrementStock {db : List Product} {pid : Nat}
    {color size : String} {qty : Int}
    (h : (decrementStock db pid color size qty).2 = true)
    (pid' : Nat) (cc sz : String) :
    classStock (decrementStock db pid color size qty).1 pid' cc sz =
      classStock db pid' cc sz +
        (if pid' = pid ∧ cc = lowerStr color ∧ sz = size then -qty
         else 0) := by
  refine classStock_elemMatchUpdate (fun v hv => ?_) h pid' cc sz
  have := (Bool.and_eq_true _ _).mp hv
  simpa [colorMatches] using this.1

theorem shape_incrementStock (db : List Product) (pid : Nat)
    (color size : String) (qty : Int) :
    shape (incrementStock db pid color size qty).1 = shape db :=
  shape_elemMatchUpdate db pid _ size qty

theorem shape_decrementStock (db : List Product) (pid : Nat)
    (color size : String) (qty : Int) :
    shape (decrementStock db pid color size qty).1 = shape db :=
  shape_elemMatchUpdate db pid _ size (-qty)

/-- C1's positive consequence of a matched decrement: a decrement is issued
by the query only, and decrementing the matched variation moves class stock
down by exactly the quantity. -/
theorem decrementStock_canDecrement (db : List Product) (pid : Nat)
    (color size : String) (qty : Int) :
    (decrementStock db pid color size qty).2 =
      canDecrement db pid color size qty := by
  rw [decrementStock, elemMatchUpdate_matched]; rfl

theorem shape_rollback (decs : List Dec) (db : List Product) :
    shape (rollback db decs) = shape db := by
  induction decs generalizing db with
  | nil => rfl
  | cons d rest ih => rw [rollback, ih, shape_incrementStock]

/-- The rollback loop adds back exactly `incDelta` at every
product/color/size key. -/
theorem classStock_rollback (decs : List Dec) (db : List Product)
    (pid : Nat) (cc sz : String) :
    classStock (rollback db decs) pid cc sz =
      classStock db pid cc sz + incDelta db decs pid cc sz := by
  induction decs generalizing db with
  | nil => simp [rollback, incDelta]
  | cons d rest ih =>
    rw [rollback, incDelta]
    cases hm : productHasColor db d.prodId d.color with
    | false =>
      rw [ih, incrementStock_unmatched hm]
      simp [hm]
    | true =>
      rw [ih, classStock_incrementStock hm pid cc sz,
        incDelta_congr (shape_incrementStock db d.prodId d.color d.size d.qty)
          rest pid cc sz]
      simp only [hm, and_true]
      ring

theorem incDelta_append (db : List Product) (l1 l2 : List Dec) (pid : Nat)
    (cc sz : String) :
    incDelta db (l1 ++ l2) pid cc sz =
      incDelta db l1 pid cc sz + incDelta db l2 pid cc sz := by
  induction l1 with
  | nil => simp [incDelta]
  | cons d rest ih => rw [List.cons_append, incDelta, incDelta, ih]; ring

theorem canDecrement_productHasColor {db : List Product} {pid : Nat}
    {color size : String} {qty : Int}
    (h : canDecrement db pid color size qty = true) :
    productHasColor db pid color = true := by
  unfold canDecrement at h
  unfold productHasColor
  simp only [List.any_eq_true, Bool.and_eq_true] at h ⊢
  rcases h with ⟨p, hp, hpid, v, hv, hdec⟩
  exact ⟨p, hp, hpid, v, hv, ((Bool.and_eq_true _ _).mp hdec).1⟩

/-- On the failure path, the stock loop's final product collection carries
exactly the rollback of everything in `decremented`: relative to the
collection at entry, only the entry decrements' compensation remains. -/
theorem stockLoop_fail_classStock (items : List OrderItem) :
    ∀ (db : List Product) (decs : List Dec) {ps : List Product}
      {msg : String} {tr : List (Dec × Bool)},
      stockLoop db decs items = .fail ps msg tr →
      ∀ pid cc sz, classStock ps pid cc sz =
        classStock db pid cc sz + incDelta db decs pid cc sz := by
  induction items with
  | nil => intro db decs ps msg tr h; simp [stockLoop] at h
  | cons it rest ih =>
    intro db decs ps msg tr h pid cc sz
    cases hip : it.product with
    | none =>
      rw [stockLoop, hip] at h
      cases hrec : stockLoop db decs rest with
      | ok ps2 proc tr2 => rw [hrec] at h; exact absurd h (by simp)
      | fail ps2 msg2 tr2 =>
        rw [hrec] at h
        simp only [StockRes.fail.injEq] at h
        rw [← h.1]
        exact ih db decs hrec pid cc sz
    | some pid0 =>
      rw [stockLoop, hip] at h
      simp only at h
      by_cases hok : (decrementStock db pid0 (trimStr it.color)
          (trimStr it.size) (jsOr it.quantity 1)).2 = true ∧
          jsOr it.quantity 1 ≠ 0
      · rw [if_pos (by simp [hok.1, bne_iff_ne, hok.2])] at h
        cases hrec : stockLoop
            (decrementStock db pid0 (trimStr it.color) (trimStr it.size)
              (jsOr it.quantity 1)).1
            (decs ++ [⟨pid0, trimStr it.color, trimStr it.size,
              jsOr it.quantity 1⟩]) rest with
        | ok ps2 proc tr2 => rw [hrec] at h; exact absurd h (by simp)
        | fail ps2 msg2 tr2 =>
          rw [hrec] at h
          simp only [StockRes.fail.injEq] at h
          rw [← h.1]
          rw [ih _ _ hrec pid cc sz]
          have hpc : productHasColor db pid0 (trimStr it.color) = true :=
            canDecrement_productHasColor
              (by rw [← decrementStock_canDecrement]; exact hok.1)
          have hsh := shape_decrementStock db pid0 (trimStr it.color)
            (trimStr it.size) (jsOr it.quantity 1)
          rw [classStock_decrementStock hok.1 pid cc sz,
            incDelta_congr hsh _ pid cc sz, incDelta_append,
            incDelta, incDelta]
          simp only [hpc, and_true]
          by_cases hC : pid = pid0 ∧ cc = lowerStr (trimStr it.color) ∧
              sz = trimStr it.size
          · simp only [if_pos hC, incDelta]
            ring
          · simp only [if_neg hC, incDelta]
            ring
      · rw [if_neg (by
          intro hcon
          rcases Bool.and_eq_true _ _ |>.mp hcon with ⟨h1, h2⟩
          exact hok ⟨h1, by simpa [bne_iff_ne] using h2⟩)] at h
        simp only [StockRes.fail.injEq] at h
        rw [← h.1]
        exact classStock_rollback decs db pid cc sz

theorem shape_restockItems (items : List OrderItem) (db : List Product) :
    shape (restockItems db items) = shape db := by
  induction items generalizing db with
  | nil => rfl
  | cons it rest ih =>
    cases hip : it.product with
    | none => simp only [restockItems, hip]; exact ih db
    | some pid =>
      simp only [restockItems, hip]
      by_cases hs : trimStr it.size = "" ∨ jsOr it.quantity 0 ≤ 0
      · rw [if_pos hs]; exact ih db
      · rw [if_neg hs, ih, shape_incrementStock]

/-- The restock loop moves `classStock` up by exactly `restockDelta` at
every product/color/size key. -/
theorem classStock_restockItems (items : List OrderItem) (db : List Product)
    (pid : Nat) (cc sz : String) :
    classStock (restockItems db items) pid cc sz =
      classStock db pid cc sz + restockDelta db items pid cc sz := by
  induction items generalizing db with
  | nil => simp [restockItems, restockDelta]
  | cons it rest ih =>
    simp only [restockItems, restockDelta]
    cases hip : it.product with
    | none => simpa [hip] using ih db
    | some pid0 =>
      simp only [hip]
      by_cases hs : trimStr it.size = "" ∨ jsOr it.quantity 0 ≤ 0
      · have hzero : ¬ (pid = pid0 ∧ cc = lowerStr (trimStr it.color) ∧
            sz = trimStr it.size ∧ trimStr it.size ≠ "" ∧
            0 < jsOr it.quantity 0 ∧
            productHasColor db pid0 (trimStr it.color) = true) := by
          rintro ⟨-, -, hsz, hne, hqt, -⟩
          rcases hs with hs | hs
          · exact hne hs
          · omega
        rw [if_pos hs, ih db, if_neg hzero]
        ring
      · push_neg at hs
        rcases hs with ⟨hs1, hs2⟩
        have hs' : ¬ (trimStr it.size = "" ∨ jsOr it.quantity 0 ≤ 0) := by
          push_neg
          exact ⟨hs1, hs2⟩
        rw [if_neg hs']
        cases hm : productHasColor db pid0 (trimStr it.color) with
        | false =>
          have hzero : ¬ (pid = pid0 ∧ cc = lowerStr (trimStr it.color) ∧
              sz = trimStr it.size ∧ trimStr it.size ≠ "" ∧
              0 < jsOr it.quantity 0 ∧ False) := by
            rintro ⟨-, -, -, -, -, hcon⟩
            exact hcon
          rw [ih, incrementStock_unmatched hm]
          simp only [hm, Bool.false_eq_true, if_neg hzero]
          ring
        | true =>
          rw [ih, classStock_incrementStock hm pid cc sz,
            restockDelta_congr (shape_incrementStock db pid0
              (trimStr it.color) (trimStr it.size) (jsOr it.quantity 0))
              rest pid cc sz]
          by_cases hC : pid = pid0 ∧ cc = lowerStr (trimStr it.color) ∧
              sz = trimStr it.size
          · rw [if_pos hC, if_pos ⟨hC.1, hC.2.1, hC.2.2, hs1, hs2, rfl⟩]
            ring
          · have hC' : ¬ (pid = pid0 ∧ cc = lowerStr (trimStr it.color) ∧
                sz = trimStr it.size ∧ trimStr it.size ≠ "" ∧
                0 < jsOr it.quantity 0 ∧ true = true) := by
              rintro ⟨h1, h2, h3, -⟩
              exact hC ⟨h1, h2, h3⟩
            rw [if_neg hC, if_neg hC']
            ring

/-! ### The computable arithmetic is the textbook arithmetic -/

theorem mulQ_eq (a b : ℚ) : mulQ a b = a * b := by
  rw [mulQ, Rat.mul_def]
  exact (Rat.normalize_eq_mkRat _).symm

theorem addQ_eq (a b : ℚ) : addQ a b = a + b := (Rat.add_def' a b).symm

theorem jsRound_eq_floor (q : ℚ) : jsRound q = ⌊q + 1 / 2⌋ := by
  have hd0 : (0 : ℤ) ≤ 2 * (q.den : ℤ) := by positivity
  have hden : ((q.den : ℤ) : ℚ) ≠ 0 := by
    have := q.den_pos
    push_cast
    positivity
  have hcast : (2 * (q.den : ℤ)) = ((2 * q.den : ℕ) : ℤ) := by push_cast; ring
  have hq : q + 1 / 2 =
      (((2 * q.num + (q.den : ℤ) : ℤ)) : ℚ) / ((2 * q.den : ℕ) : ℚ) := by
    conv_lhs => rw [← Rat.num_div_den q]
    push_cast
    field_simp
    ring
  rw [jsRound, Int.fdiv_eq_ediv _ hd0, hq, hcast,
    Rat.floor_intCast_div_natCast]

/-! ### Nonnegativity of stock -/

/-- All stock entries of one variation are nonnegative. -/
def nonnegVar (v : Variation) : Prop := ∀ e ∈ v.stockBySize, 0 ≤ e.2

/-- All stock entries of one document are nonnegative. -/
def nonnegProduct (p : Product) : Prop := ∀ v ∈ p.variations, nonnegVar v

theorem nonnegDB_iff {db : List Product} :
    nonnegDB db ↔ ∀ p ∈ db, nonnegProduct p := Iff.rfl

theorem updateFirst_preserve {α : Type} (P : α → Prop) {p : α → Bool}
    {f : α → α} (hf : ∀ a, p a = true → P a → P (f a)) {l l' : List α}
    (h : updateFirst p f l = some l') (hl : ∀ a ∈ l, P a) :
    ∀ a ∈ l', P a := by
  induction l generalizing l' with
  | nil => simp [updateFirst] at h
  | cons a rest ih =>
    rw [updateFirst] at h
    by_cases hp : p a
    · rw [if_pos hp, Option.some.injEq] at h
      subst h
      intro b hb
      rcases List.mem_cons.mp hb with rfl | hb
      · exact hf a hp (hl a (List.mem_cons_self a rest))
      · exact hl b (List.mem_cons_of_mem a hb)
    · rw [if_neg hp] at h
      rcases Option.map_eq_some'.mp h with ⟨rest', hrest, hl'⟩
      subst hl'
      intro b hb
      rcases List.mem_cons.mp hb with rfl | hb
      · exact hl b (List.mem_cons_self b rest)
      · exact ih hrest (fun a' ha' => hl a' (List.mem_cons_of_mem a ha')) b hb

theorem nonneg_incSize_of_nonneg {m : List (String × Int)} {s : String}
    {d : Int} (hm : ∀ e ∈ m, 0 ≤ e.2) (hd : 0 ≤ d) :
    ∀ e ∈ incSize m s d, 0 ≤ e.2 := by
  induction m with
  | nil =>
    intro e he
    simp only [incSize, List.mem_singleton] at he
    subst he
    exact hd
  | cons a rest ih =>
    intro e he
    by_cases h : a.1 == s
    · simp only [incSize, h, if_true, List.mem_cons] at he
      rcases he with rfl | he
      · have := hm a (List.mem_cons_self a rest)
        exact add_nonneg this hd
      · exact hm e (List.mem_cons_of_mem a he)
    · simp only [incSize, h, Bool.false_eq_true, if_false,
        List.mem_cons] at he
      rcases he with rfl | he
      · exact hm e (List.mem_cons_self e rest)
      · exact ih (fun e' he' => hm e' (List.mem_cons_of_mem a he')) e he

theorem nonneg_incSize_of_find {m : List (String × Int)} {s : String}
    {qty n : Int} (hm : ∀ e ∈ m, 0 ≤ e.2)
    (hfind : ∃ key, m.find? (fun e => e.1 == s) = some (key, n))
    (hq : qty ≤ n) : ∀ e ∈ incSize m s (-qty), 0 ≤ e.2 := by
  induction m with
  | nil => rcases hfind with ⟨key, hk⟩; simp at hk
  | cons a rest ih =>
    intro e he
    by_cases h : a.1 == s
    · rcases hfind with ⟨key, hk⟩
      have hfa : (fun (e : String × Int) => e.1 == s) a = true := h
      rw [List.find?_cons_of_pos rest hfa, Option.some.injEq] at hk
      simp only [incSize, h, if_true, List.mem_cons] at he
      rcases he with rfl | he
      · have h2 : a.2 = n := by rw [hk]
        simp only [h2]
        omega
      · exact hm e (List.mem_cons_of_mem a he)
    · rcases hfind with ⟨key, hk⟩
      have hfa : ¬ ((fun (e : String × Int) => e.1 == s) a = true) := h
      rw [List.find?_cons_of_neg rest hfa] at hk
      simp only [incSize, h, Bool.false_eq_true, if_false,
        List.mem_cons] at he
      rcases he with rfl | he
      · exact hm e (List.mem_cons_self e rest)
      · exact ih (fun e' he' => hm e' (List.mem_cons_of_mem a he'))
          ⟨key, hk⟩ e he

theorem nonnegVar_bumpVar_of_nonneg {v : Variation} {size : String}
    {d : Int} (hv : nonnegVar v) (hd : 0 ≤ d) :
    nonnegVar (bumpVar size d v) :=
  nonneg_incSize_of_nonneg hv hd

theorem nonnegVar_bumpVar_of_hasStock {v : Variation} {size : String}
    {qty : Int} (hv : nonnegVar v) (hs : hasStock v size qty = true) :
    nonnegVar (bumpVar size (-qty) v) := by
  rcases hasStock_iff.mp hs with ⟨n, hn, hq⟩
  rcases Option.map_eq_some'.mp hn with ⟨e, he, hev⟩
  refine nonneg_incSize_of_find hv ⟨e.1, ?_⟩ hq
  rw [he, ← hev]

theorem nonnegDB_elemMatchUpdate {db : List Product} {pid : Nat}
    {q : Variation → Bool} {f : Variation → Variation}
    (hf : ∀ v, q v = true → nonnegVar v → nonnegVar (f v))
    (h : nonnegDB db) : nonnegDB (elemMatchUpdate db pid q f).1 := by
  unfold elemMatchUpdate
  cases hu : updateFirst (fun p => p.pid == pid && p.variations.any q)
      (bumpProduct q f) db with
  | none => exact h
  | some db' =>
    refine updateFirst_preserve nonnegProduct ?_ hu h
    intro p _ hp
    unfold bumpProduct nonnegProduct
    cases hv : updateFirst q f p.variations with
    | none => exact hp
    | some vs' =>
      simp only [hv, Option.getD_some]
      exact updateFirst_preserve nonnegVar hf hv hp

theorem nonnegDB_incrementStock {db : List Product} {pid : Nat}
    {color size : String} {qty : Int} (hq : 0 ≤ qty) (h : nonnegDB db) :
    nonnegDB (incrementStock db pid color size qty).1 :=
  nonnegDB_elemMatchUpdate
    (fun _ _ hv => nonnegVar_bumpVar_of_nonneg hv hq) h

theorem nonnegDB_decrementStock {db : List Product} {pid : Nat}
    {color size : String} {qty : Int} (h : nonnegDB db) :
    nonnegDB (decrementStock db pid color size qty).1 :=
  nonnegDB_elemMatchUpdate
    (fun _ hq hv => nonnegVar_bumpVar_of_hasStock hv
      ((Bool.and_eq_true _ _).mp hq).2) h

theorem nonnegDB_rollback {decs : List Dec} {db : List Product}
    (hdecs : ∀ d ∈ decs, 0 ≤ d.qty) (h : nonnegDB db) :
    nonnegDB (rollback db decs) := by
  induction decs generalizing db with
  | nil => exact h
  | cons d rest ih =>
    rw [rollback]
    exact ih (fun d' hd' => hdecs d' (List.mem_cons_of_mem d hd'))
      (nonnegDB_incrementStock (hdecs d (List.mem_cons_self d rest)) h)

theorem nonnegDB_restockItems {items : List OrderItem}
    {db : List Product} (h : nonnegDB db) :
    nonnegDB (restockItems db items) := by
  induction items generalizing db with
  | nil => exact h
  | cons it rest ih =>
    cases hip : it.product with
    | none => simp only [restockItems, hip]; exact ih h
    | some pid =>
      simp only [restockItems, hip]
      by_cases hs : trimStr it.size = "" ∨ jsOr it.quantity 0 ≤ 0
      · rw [if_pos hs]; exact ih h
      · rw [if_neg hs]
        push_neg at hs
        exact ih (nonnegDB_incrementStock (le_of_lt hs.2) h)

theorem nonnegDB_stockLoop (items : List OrderItem) :
    ∀ (db : List Product) (decs : List Dec),
      (∀ d ∈ decs, 0 ≤ d.qty) →
      (∀ it ∈ items, 0 ≤ jsOr it.quantity 1) →
      nonnegDB db → nonnegDB (stockLoop db decs items).products := by
  induction items with
  | nil =>
    intro db decs _ _ h
    exact h
  | cons it rest ih =>
    intro db decs hdecs hitems h
    have hrest : ∀ it' ∈ rest, 0 ≤ jsOr it'.quantity 1 :=
      fun it' hit' => hitems it' (List.mem_cons_of_mem it hit')
    cases hip : it.product with
    | none =>
      simp only [stockLoop, hip]
      have := ih db decs hdecs hrest h
      cases hrec : stockLoop db decs rest with
      | ok ps proc tr => rw [hrec] at this; exact this
      | fail ps msg tr => rw [hrec] at this; exact this
    | some pid =>
      simp only [stockLoop, hip]
      by_cases hok : (decrementStock db pid (trimStr it.color)
          (trimStr it.size) (jsOr it.quantity 1)).2 &&
          jsOr it.quantity 1 != 0
      · rw [if_pos hok]
        have hq : 0 ≤ jsOr it.quantity 1 :=
          hitems it (List.mem_cons_self it rest)
        have hdecs' : ∀ d ∈ decs ++ [(⟨pid, trimStr it.color,
            trimStr it.size, jsOr it.quantity 1⟩ : Dec)], 0 ≤ d.qty := by
          intro d hd
          rcases List.mem_append.mp hd with hd | hd
          · exact hdecs d hd
          · rw [List.mem_singleton] at hd
            subst hd
            exact hq
        have := ih (decrementStock db pid (trimStr it.color)
            (trimStr it.size) (jsOr it.quantity 1)).1
          (decs ++ [⟨pid, trimStr it.color, trimStr it.size,
            jsOr it.quantity 1⟩]) hdecs' hrest
          (nonnegDB_decrementStock h)
        cases hrec : stockLoop (decrementStock db pid (trimStr it.color)
            (trimStr it.size) (jsOr it.quantity 1)).1
            (decs ++ [⟨pid, trimStr it.color, trimStr it.size,
              jsOr it.quantity 1⟩]) rest with
        | ok ps proc tr => rw [hrec] at this; exact this
        | fail ps msg tr => rw [hrec] at this; exact this
      · rw [if_neg hok]
        exact nonnegDB_rollback hdecs h

theorem reqValid_items_nonneg {r : CreateOrderReq}
    (h : reqValid r = true) : ∀ it ∈ r.items, 0 ≤ jsOr it.quantity 1 := by
  intro it hit
  simp only [reqValid, Bool.and_eq_true, List.all_eq_true, itemValid,
    decide_eq_true_eq] at h
  have h1 := (h.1.2 it hit).1
  unfold jsOr
  split <;> omega

theorem nonnegDB_createOrder (st : Store) (userId : Nat)
    (r : CreateOrderReq) (h : nonnegDB st.products) :
    nonnegDB ((createOrder st userId r).2.products) := by
  unfold createOrder
  by_cases hv : reqValid r
  · rw [if_neg (by simpa using hv)]
    split
    · exact h
    · split
      · exact h
      · split
        · exact h
        · split
          · exact h
          · have hnn := nonnegDB_stockLoop r.items st.products []
              (by intro d hd; simp at hd) (reqValid_items_nonneg hv) h
            split
            next ps msg tr heq => rw [heq] at hnn; exact hnn
            next ps processed tr heq => rw [heq] at hnn; exact hnn
  · rw [if_pos (by simpa using hv)]
    exact h

theorem nonnegDB_updateOrderStatus (st : Store) (oid : Nat)
    (status : String) (h : nonnegDB st.products) :
    nonnegDB ((updateOrderStatus st oid status).2.products) := by
  unfold updateOrderStatus
  split
  · exact h
  · split
    · exact h
    · simp only
      split
      · exact nonnegDB_restockItems h
      · exact h

theorem nonnegDB_fakePayment (st : Store) (userId : Nat) (isAdmin : Bool)
    (orderId : Nat) (simulate : String) (h : nonnegDB st.products) :
    nonnegDB ((fakePayment st userId isAdmin orderId simulate).2.products) := by
  unfold fakePayment
  split
  · exact h
  · split
    · exact h
    · split
      · exact h
      · split
        · exact h
        · exact nonnegDB_restockItems h

theorem nonnegDB_applyOp (st : Store) (op : Op)
    (h : nonnegDB st.products) : nonnegDB (applyOp st op).products := by
  cases op with
  | create userId r => exact nonnegDB_createOrder st userId r h
  | setStatus oid status => exact nonnegDB_updateOrderStatus st oid status h
  | pay userId isAdmin orderId simulate =>
    exact nonnegDB_fakePayment st userId isAdmin orderId simulate h

theorem findOrder_replaceOrder {oid : Nat} {o o' : Order}
    (h' : o'.oid = o.oid) :
    ∀ {orders : List Order}, findOrder orders oid = some o →
      findOrder (replaceOrder orders oid o') oid = some o' := by
  intro orders
  induction orders with
  | nil => intro h; simp [findOrder] at h
  | cons a rest ih =>
    intro h
    have hh0 : List.find? (fun x => x.oid == oid) (a :: rest) = some o := h
    have hoid := List.find?_some hh0
    have ho' : (o'.oid == oid) = true := by rw [h']; exact hoid
    show List.find? (fun x => x.oid == oid)
      ((a :: rest).map (fun x => if x.oid == oid then o' else x)) = some o'
    rw [List.map_cons]
    cases ha : (a.oid == oid) with
    | true => simp [List.find?_cons, ha, ho']
    | false =>
      have hh1 : List.find? (fun x => x.oid == oid) rest = some o := by
        rw [List.find?_cons, ha] at hh0
        exact hh0
      simp only [List.find?_cons, ha, Bool.false_eq_true, if_false]
      exact ih hh1

/-! ### Claim theorems -/

/-- **C4.** `createOrder` is idempotent per user on the idempotency key:
for a validated request carrying a key (body or `Idempotency-Key` header,
empty strings being falsy) for which an order with that key already exists
for the same authenticated user, the handler answers 200 with that existing
order and the store — orders and product stock alike — is unchanged. -/
theorem createOrder_idempotent_on_key (st : Store) (userId : Nat)
    (r : CreateOrderReq) (k : String) (o : Order)
    (hv : reqValid r = true) (hs : r.shippingOk = true)
    (hk : keyOf r = some k)
    (ho : findExisting st.orders userId k = some o) :
    createOrder st userId r = (.okOrder o, st) := by
  unfold createOrder
  rw [if_neg (by simp [hv]), if_neg (by simp [hs])]
  have hhit : idemHit st userId r = some o := by
    rw [idemHit, hk, Option.some_bind]
    exact ho
  rw [hhit]

/-- Witness for C4 at a concrete store and request. -/
theorem createOrder_idempotent_on_key_witness :
    createOrder stW 7 reqW = (.okOrder ordW, stW) :=
  createOrder_idempotent_on_key stW 7 reqW "abc" ordW (by decide) (by decide)
    (by decide) (by decide)

/-- **C9.** `fakePayment` is idempotent on paid orders: for an authorized
caller and an order whose `payed` flag is true it answers 200
"Already payed" and changes nothing, for every `simulate` value; hence two
successive `simulate = "success"` calls end in the same store as one. -/
theorem fakePayment_idempotent_on_payed :
    (∀ (st : Store) (userId : Nat) (isAdmin : Bool) (orderId : Nat)
      (simulate : String) (o : Order),
      findOrder st.orders orderId = some o →
      (o.user = userId ∨ isAdmin = true) →
      o.payed = true →
      fakePayment st userId isAdmin orderId simulate =
        (.okMsg "Already payed" o, st))
    ∧ (∀ (st : Store) (userId : Nat) (isAdmin : Bool) (orderId : Nat),
        (fakePayment (fakePayment st userId isAdmin orderId "success").2
          userId isAdmin orderId "success").2 =
        (fakePayment st userId isAdmin orderId "success").2) := by
  have hbase : ∀ (st : Store) (userId : Nat) (isAdmin : Bool)
      (orderId : Nat) (simulate : String) (o : Order),
      findOrder st.orders orderId = some o →
      (o.user = userId ∨ isAdmin = true) →
      o.payed = true →
      fakePayment st userId isAdmin orderId simulate =
        (.okMsg "Already payed" o, st) := by
    intro st userId isAdmin orderId simulate o hf hauth hp
    unfold fakePayment
    simp only [hf]
    rw [if_neg (by
      rintro ⟨h1, h2⟩
      rcases hauth with hauth | hauth
      · exact h1 hauth
      · rw [hauth] at h2; exact absurd h2 (by decide))]
    rw [if_pos hp]
  refine ⟨hbase, ?_⟩
  intro st userId isAdmin orderId
  cases hf : findOrder st.orders orderId with
  | none =>
    have h1 : fakePayment st userId isAdmin orderId "success" =
        (.notFound "Order not found", st) := by
      unfold fakePayment
      simp only [hf]
    have h2 : (fakePayment st userId isAdmin orderId "success").2 = st := by
      rw [h1]
    rw [h2]
    exact h2
  | some o =>
    by_cases hauth : o.user ≠ userId ∧ isAdmin = false
    · have h1 : fakePayment st userId isAdmin orderId "success" =
          (.forbidden, st) := by
        unfold fakePayment
        simp only [hf]
        rw [if_pos hauth]
      have h2 : (fakePayment st userId isAdmin orderId "success").2 = st := by
        rw [h1]
      rw [h2]
      exact h2
    · by_cases hp : o.payed
      · have h1 : fakePayment st userId isAdmin orderId "success" =
            (.okMsg "Already payed" o, st) := by
          unfold fakePayment
          simp only [hf]
          rw [if_neg hauth, if_pos hp]
        have h2 : (fakePayment st userId isAdmin orderId "success").2 =
            st := by
          rw [h1]
        rw [h2]
        exact h2
      · set o2 : Order := { o with payed := true } with ho2
        set st2 : Store :=
          { st with orders := replaceOrder st.orders orderId o2 } with hst2
        have h1 : fakePayment st userId isAdmin orderId "success" =
            (.paymentOk o2, st2) := by
          unfold fakePayment
          simp only [hf]
          rw [if_neg hauth, if_neg hp, if_pos (by simp)]
        have h2 : (fakePayment st userId isAdmin orderId "success").2 =
            st2 := by
          rw [h1]
        rw [h2]
        have hauth' : o2.user = userId ∨ isAdmin = true := by
          by_cases hu : o.user = userId
          · exact Or.inl hu
          · right
            by_cases hA : isAdmin = true
            · exact hA
            · exact absurd ⟨hu, by simpa using hA⟩ hauth
        have hf2 : findOrder st2.orders orderId = some o2 :=
          findOrder_replaceOrder (show o2.oid = o.oid from rfl) hf
        have h3 := hbase st2 userId isAdmin orderId "success" o2 hf2
          hauth' rfl
        rw [h3]

/-- Witness for C9 at a concrete paid order. -/
theorem fakePayment_idempotent_on_payed_witness :
    fakePayment stPayed 7 false 3 "fail" =
      (.okMsg "Already payed" ordPayed, stPayed) :=
  fakePayment_idempotent_on_payed.1 stPayed 7 false 3 "fail" ordPayed
    (by decide) (Or.inl (by decide)) (by decide)

/-- **C3.** `createOrder` is atomic with respect to stock on its 400 paths:
whenever the handler answers 400 — in particular when a later item's
conditional decrement fails after earlier items were decremented, which
triggers one compensating increment per recorded decrement at the same
product/color/size and quantity — the stored orders are unchanged and the
net stock at every product/color/size key is unchanged. -/
theorem createOrder_failure_compensates (st : Store) (userId : Nat)
    (r : CreateOrderReq) (msg : String) (st' : Store)
    (h : createOrder st userId r = (.badRequest msg, st')) :
    st'.orders = st.orders ∧
    ∀ pid cc sz, classStock st'.products pid cc sz =
      classStock st.products pid cc sz := by
  unfold createOrder at h
  split at h
  · have h2 : st' = st := by
      simp only [Prod.mk.injEq] at h
      exact h.2.symm
    subst h2
    exact ⟨rfl, fun _ _ _ => rfl⟩
  · split at h
    · have h2 : st' = st := by
        simp only [Prod.mk.injEq] at h
        exact h.2.symm
      subst h2
      exact ⟨rfl, fun _ _ _ => rfl⟩
    · split at h
      · simp at h
      · split at h
        · have h2 : st' = st := by
            simp only [Prod.mk.injEq] at h
            exact h.2.symm
          subst h2
          exact ⟨rfl, fun _ _ _ => rfl⟩
        · split at h
          · have h2 : st' = st := by
              simp only [Prod.mk.injEq] at h
              exact h.2.symm
            subst h2
            exact ⟨rfl, fun _ _ _ => rfl⟩
          · split at h
            next ps msg0 tr heq =>
              have h2 : st' = { st with products := ps } := by
                simp only [Prod.mk.injEq] at h
                exact h.2.symm
              subst h2
              refine ⟨rfl, fun pid cc sz => ?_⟩
              simpa [incDelta] using
                stockLoop_fail_classStock r.items st.products [] heq pid cc sz
            next ps processed tr heq => simp at h

/-- Witness for C3: a two-item order whose second decrement fails; the first
decrement is rolled back, no order is stored, and the red/M stock is
unchanged. -/
theorem createOrder_failure_compensates_witness :
    (createOrder stAB 7 { items := [itA2, itB2], totalPrice := 30 }).2.orders
        = stAB.orders ∧
    classStock (createOrder stAB 7
        { items := [itA2, itB2], totalPrice := 30 }).2.products 1 "red" "M" =
      classStock stAB.products 1 "red" "M" := by
  have h := createOrder_failure_compensates stAB 7
    { items := [itA2, itB2], totalPrice := 30 }
    (stockFailMsg 2 "blue" "M")
    (createOrder stAB 7 { items := [itA2, itB2], totalPrice := 30 }).2
    (by decide)
  exact ⟨h.1, h.2 1 "red" "M"⟩

/-- **C1.** The stock decrement of `createOrder` is conditional: the
per-item `updateOne` matches exactly when some variation of the product
matches the item's color case-insensitively and has `stockBySize[size] ≥
quantity`; an unmatched update changes nothing; a matched one lowers the
stock at exactly that product/color/size by the quantity; and when the loop
fails the handler answers 400 with the "Not enough stock or selected
variation missing" message of the failing item. -/
theorem createOrder_stock_decrement_conditional :
    (∀ (db : List Product) (pid : Nat) (color size : String) (qty : Int),
      ((decrementStock db pid color size qty).2 = true ↔
        ∃ p ∈ db, p.pid = pid ∧ ∃ v ∈ p.variations,
          colorMatches v color = true ∧
            ∃ n, stockAt v size = some n ∧ qty ≤ n))
    ∧ (∀ (db : List Product) (pid : Nat) (color size : String) (qty : Int),
        (decrementStock db pid color size qty).2 = false →
        (decrementStock db pid color size qty).1 = db)
    ∧ (∀ (db : List Product) (pid : Nat) (color size : String) (qty : Int),
        (decrementStock db pid color size qty).2 = true →
        classStock (decrementStock db pid color size qty).1 pid
            (lowerStr color) size =
          classStock db pid (lowerStr color) size - qty)
    ∧ (∀ (st : Store) (userId : Nat) (r : CreateOrderReq) (c : Int)
        (ps : List Product) (msg : String) (tr : List (Dec × Bool)),
        reqValid r = true → r.shippingOk = true →
        idemHit st userId r = none →
        recalcTotalPriceCents st.products r.items = .ok c →
        jsRound (mulQ r.totalPrice 100) = c →
        stockLoop st.products [] r.items = .fail ps msg tr →
        createOrder st userId r =
          (.badRequest msg, { st with products := ps })) := by
  refine ⟨fun db pid color size qty =>
      decrementStock_matched_iff db pid color size qty,
    fun db pid color size qty h => decrementStock_unmatched h,
    fun db pid color size qty h => ?_, ?_⟩
  · rw [classStock_decrementStock h pid (lowerStr color) size,
      if_pos ⟨rfl, rfl, rfl⟩]
    ring
  · intro st userId r c ps msg tr hv hs hhit hcalc hmatch hfail
    unfold createOrder
    rw [if_neg (by simp [hv]), if_neg (by simp [hs])]
    simp only [hhit, hcalc]
    rw [if_neg (by simp [hmatch])]
    simp only [hfail]

/-- Witness for C1: a single-item order asking for 4 of red/M when only 3
are in stock is rejected with the stock message and the store unchanged. -/
theorem createOrder_stock_decrement_conditional_witness :
    createOrder stAB 7 { items := [itA4], totalPrice := 40 } =
      (.badRequest (stockFailMsg 1 "red" "M"), stAB) :=
  createOrder_stock_decrement_conditional.2.2.2 stAB 7
    { items := [itA4], totalPrice := 40 } 4000 stAB.products
    (stockFailMsg 1 "red" "M") [(⟨1, "red", "M", 4⟩, false)]
    (by decide) (by decide) (by decide) (by decide) (by decide) (by decide)

/-- Cancelling an order that is already cancelled performs no restock. -/
theorem updateOrderStatus_products_noRestock {st : Store} {oid : Nat}
    {o : Order} (hf : findOrder st.orders oid = some o)
    (hno : o.status = "cancelled") :
    (updateOrderStatus st oid "cancelled").2.products = st.products := by
  unfold updateOrderStatus
  rw [if_neg (by simp [validStatuses])]
  simp only [hf]
  simp [hno]

/-- **C5.** `updateOrderStatus` restocks exactly on the transition into
`"cancelled"`: moving a non-cancelled order to `"cancelled"` raises the
stock at every product/color/size key by the restock delta of its items
(the quantity of every item with a product reference, non-empty size and
positive quantity whose product has a color-matching variation); any other
transition, and in particular cancelling an already-cancelled order — also
when the cancellation is applied twice in a row — leaves stock unchanged. -/
theorem updateOrderStatus_restock_on_cancel (st : Store) (oid : Nat)
    (status : String) (o : Order)
    (hf : findOrder st.orders oid = some o)
    (hval : status ∈ validStatuses) :
    (status = "cancelled" → o.status ≠ "cancelled" →
      ∀ pid cc sz,
        classStock (updateOrderStatus st oid status).2.products pid cc sz =
          classStock st.products pid cc sz +
            restockDelta st.products o.items pid cc sz)
    ∧ ((status ≠ "cancelled" ∨ o.status = "cancelled") →
        (updateOrderStatus st oid status).2.products = st.products)
    ∧ (updateOrderStatus (updateOrderStatus st oid "cancelled").2 oid
          "cancelled").2.products =
        (updateOrderStatus st oid "cancelled").2.products := by
  have hrun : ∀ s, s ∈ validStatuses →
      (updateOrderStatus st oid s).2 =
        { st with
            products := if s == "cancelled" && o.status != "cancelled" then
              restockItems st.products o.items else st.products
            orders := replaceOrder st.orders oid { o with status := s } } := by
    intro s hvs
    unfold updateOrderStatus
    rw [if_neg (by simpa using hvs), hf]
  refine ⟨?_, ?_, ?_⟩
  · intro hc ho pid cc sz
    rw [hrun status hval]
    simp only
    rw [if_pos (by simp [hc, bne_iff_ne, ho])]
    exact classStock_restockItems o.items st.products pid cc sz
  · intro hother
    rw [hrun status hval]
    simp only
    rw [if_neg (by
      intro hcon
      rcases (Bool.and_eq_true _ _).mp hcon with ⟨h1, h2⟩
      rcases hother with hother | hother
      · exact hother (by simpa using h1)
      · rw [hother] at h2; simp at h2)]
  · have hcan : ("cancelled" : String) ∈ validStatuses := by decide
    have hf2 : findOrder (replaceOrder st.orders oid
        { o with status := "cancelled" }) oid =
        some { o with status := "cancelled" } :=
      findOrder_replaceOrder
        (show ({ o with status := "cancelled" } : Order).oid = o.oid
          from rfl) hf
    have hford : findOrder (updateOrderStatus st oid "cancelled").2.orders
        oid = some ({ o with status := "cancelled" }) := by
      rw [hrun "cancelled" hcan]
      exact hf2
    exact updateOrderStatus_products_noRestock hford rfl

/-- Witness for C5: cancelling a pending order of two red/M raises the
red/M class stock by the restock delta of its items. -/
theorem updateOrderStatus_restock_on_cancel_witness :
    classStock (updateOrderStatus stPend 9 "cancelled").2.products
        1 "red" "M" =
      classStock stPend.products 1 "red" "M" +
        restockDelta stPend.products ordPend.items 1 "red" "M" :=
  (updateOrderStatus_restock_on_cancel stPend 9 "cancelled" ordPend
    (by decide) (by decide)).1 rfl (by decide) 1 "red" "M"

/-- **C7.** No stock value ever becomes negative through the order flow:
every conditional decrement is guarded by `stockBySize[size] ≥ quantity` in
the same atomic update, and every other stock write of the flow (rollback
in `createOrder`, restock in `updateOrderStatus`, `restockOrderItems` in
`fakePayment`) only adds nonnegative quantities; hence, sequentially, any
sequence of these operations preserves nonnegativity of every stock
entry. -/
theorem orderFlow_stock_nonneg (ops : List Op) :
    ∀ st : Store, nonnegDB st.products →
      nonnegDB (runOps st ops).products := by
  induction ops with
  | nil => intro st h; exact h
  | cons op rest ih =>
    intro st h
    exact ih (applyOp st op) (nonnegDB_applyOp st op h)

/-- Witness for C7: create, cancel and fail-pay an order in sequence; all
stock stays nonnegative. -/
theorem orderFlow_stock_nonneg_witness :
    nonnegDB (runOps stAB
      [.create 7 { items := [itA2], totalPrice := 20 },
       .setStatus 0 "cancelled",
       .pay 7 false 0 "fail"]).products :=
  orderFlow_stock_nonneg
    [.create 7 { items := [itA2], totalPrice := 20 },
     .setStatus 0 "cancelled",
     .pay 7 false 0 "fail"] stAB (by decide)

theorem unitPriceFor_eq_spec (db : List Product) (it : OrderItem) :
    unitPriceFor db it = specUnitPrice db it := by
  unfold unitPriceFor specUnitPrice
  cases hip : it.product with
  | none => rfl
  | some pid =>
    cases hfp : findProduct db pid with
    | none => simp [hfp]
    | some p =>
      by_cases hc : it.color = ""
      · cases hsp : p.salePrice <;> cases hpp : p.price <;>
          by_cases hcp : it.price = 0 <;>
            simp [hfp, hc, productLevelPrice, hsp, hpp, hcp,
              List.findSome?]
      · cases hv : findVariation p it.color with
        | none =>
          cases hsp : p.salePrice <;> cases hpp : p.price <;>
            by_cases hcp : it.price = 0 <;>
              simp [hfp, hc, hv, productLevelPrice, hsp, hpp, hcp,
                List.findSome?]
        | some v =>
          cases hvs : v.salePrice with
          | some sp => simp [hfp, hc, hv, hvs, List.findSome?]
          | none =>
            cases hvp : v.price with
            | some pr => simp [hfp, hc, hv, hvs, hvp, List.findSome?]
            | none =>
              cases hsp : p.salePrice <;> cases hpp : p.price <;>
                by_cases hcp : it.price = 0 <;>
                  simp [hfp, hc, hv, hvs, hvp, productLevelPrice, hsp,
                    hpp, hcp, List.findSome?]

/-- **C2 (amended).** `createOrder` recomputes the total server-side in
integer cents with the unit-price preference order `variation.salePrice`,
`variation.price`, `product.salePrice`, `product.price`, then the
client-provided price when it is nonzero (a product item whose stored
prices are all absent and whose client price is 0 is rejected 400
"Price missing for product …"; an item without a product reference uses the
client price directly), and rejects with 400 "totalPrice mismatch" — with
no state change, so no order is created — whenever the submitted
`totalPrice`, rounded to cents, differs from the recomputed total. -/
theorem createOrder_price_recompute_amended :
    (∀ (db : List Product) (it : OrderItem),
      unitPriceFor db it = specUnitPrice db it)
    ∧ (∀ (st : Store) (userId : Nat) (r : CreateOrderReq) (c : Int),
        reqValid r = true → r.shippingOk = true →
        idemHit st userId r = none →
        recalcTotalPriceCents st.products r.items = .ok c →
        jsRound (mulQ r.totalPrice 100) ≠ c →
        createOrder st userId r =
          (.badRequest "totalPrice mismatch", st)) := by
  refine ⟨unitPriceFor_eq_spec, ?_⟩
  intro st userId r c hv hs hhit hcalc hmatch
  unfold createOrder
  rw [if_neg (by simp [hv]), if_neg (by simp [hs])]
  simp only [hhit, hcalc]
  rw [if_pos hmatch]

/-- Witness for C2 (amended): submitting 21 for a 20.00 order is rejected
with "totalPrice mismatch" and the store is unchanged. -/
theorem createOrder_price_recompute_amended_witness :
    createOrder stAB 7 { items := [itA2], totalPrice := 21 } =
      (.badRequest "totalPrice mismatch", stAB) :=
  createOrder_price_recompute_amended.2 stAB 7
    { items := [itA2], totalPrice := 21 } 2000 (by decide) (by decide)
    (by decide) (by decide) (by decide)

/-- Counterexample to C2 as stated: for a stored product document with no
numeric prices and an item with client price 0 and quantity 1, the claim's
preference chain recomputes a total of 0 cents (falling back to the client
price), but the code's recomputation throws "Price missing" instead, and
`createOrder` rejects with that message even though the submitted total
(0) equals the claim's recomputed total. -/
theorem claim2_client_price_counterexample :
    claimTotalCents stZero.products reqZero.items = .ok 0 ∧
    recalcTotalPriceCents stZero.products reqZero.items =
      .error "Price missing for product 1" ∧
    jsRound (mulQ reqZero.totalPrice 100) = 0 ∧
    (createOrder stZero 7 reqZero).1 =
      .badRequest "Price missing for product 1" :=
  ⟨by decide, by decide, by decide, by decide⟩

/-- **C6.** The stock reservation is a sequence of per-item conditional
updates, not one transaction: the attempted updates (the loop's trace) are
one per product-referencing item, in list order — always a prefix of
`productDecs`, and all of it when the loop succeeds; every attempt before
the last one succeeded; and on failure the last attempt is the failed one,
so items after it are never attempted. -/
theorem stockLoop_per_item_conditional (items : List OrderItem) :
    ∀ (db : List Product) (decs : List Dec),
      (∃ rest, productDecs items =
        ((stockLoop db decs items).trace.map Prod.fst) ++ rest)
      ∧ (∀ ps proc tr, stockLoop db decs items = .ok ps proc tr →
          tr.map Prod.fst = productDecs items ∧ ∀ a ∈ tr, a.2 = true)
      ∧ (∀ ps msg tr, stockLoop db decs items = .fail ps msg tr →
          (∀ a ∈ tr.dropLast, a.2 = true) ∧
            (tr.getLast?.map Prod.snd) = some false) := by
  induction items with
  | nil =>
    intro db decs
    refine ⟨⟨[], rfl⟩, ?_, ?_⟩
    · intro ps proc tr h
      rw [stockLoop] at h
      cases h
      exact ⟨rfl, by intro a ha; simp at ha⟩
    · intro ps msg tr h
      rw [stockLoop] at h
      simp at h
  | cons it rest ih =>
    intro db decs
    cases hip : it.product with
    | none =>
      have hpd : productDecs (it :: rest) = productDecs rest := by
        simp [productDecs, List.filterMap_cons, hip]
      cases hrec : stockLoop db decs rest with
      | ok ps2 proc2 tr2 =>
        have hres : stockLoop db decs (it :: rest) =
            .ok ps2 (mkProcessed it :: proc2) tr2 := by
          simp only [stockLoop, hip, hrec]
        refine ⟨?_, ?_, ?_⟩
        · rcases ((ih db decs).1) with ⟨r0, hr0⟩
          rw [hrec] at hr0
          exact ⟨r0, by rw [hpd, hres]; exact hr0⟩
        · intro ps proc tr h
          rw [hres] at h
          cases h
          have := (ih db decs).2.1 ps2 proc2 tr2 hrec
          exact ⟨by rw [hpd]; exact this.1, this.2⟩
        · intro ps msg tr h
          rw [hres] at h
          simp at h
      | fail ps2 msg2 tr2 =>
        have hres : stockLoop db decs (it :: rest) = .fail ps2 msg2 tr2 := by
          simp only [stockLoop, hip, hrec]
        refine ⟨?_, ?_, ?_⟩
        · rcases ((ih db decs).1) with ⟨r0, hr0⟩
          rw [hrec] at hr0
          exact ⟨r0, by rw [hpd, hres]; exact hr0⟩
        · intro ps proc tr h
          rw [hres] at h
          simp at h
        · intro ps msg tr h
          rw [hres] at h
          cases h
          exact (ih db decs).2.2 ps2 msg2 tr2 hrec
    | some pid =>
      have hpd : productDecs (it :: rest) =
          ⟨pid, trimStr it.color, trimStr it.size, jsOr it.quantity 1⟩ ::
            productDecs rest := by
        simp [productDecs, List.filterMap_cons, hip]
      by_cases hok : (decrementStock db pid (trimStr it.color)
          (trimStr it.size) (jsOr it.quantity 1)).2 &&
          jsOr it.quantity 1 != 0
      · have hbranch : stockLoop db decs (it :: rest) =
            match stockLoop (decrementStock db pid (trimStr it.color)
                (trimStr it.size) (jsOr it.quantity 1)).1
              (decs ++ [⟨pid, trimStr it.color, trimStr it.size,
                jsOr it.quantity 1⟩]) rest with
            | .ok ps proc tr =>
              .ok ps (mkProcessed it :: proc)
                ((⟨pid, trimStr it.color, trimStr it.size,
                  jsOr it.quantity 1⟩, true) :: tr)
            | .fail ps msg tr =>
              .fail ps msg
                ((⟨pid, trimStr it.color, trimStr it.size,
                  jsOr it.quantity 1⟩, true) :: tr) := by
          simp only [stockLoop, hip]
          rw [if_pos hok]
        have ih2 := ih (decrementStock db pid (trimStr it.color)
            (trimStr it.size) (jsOr it.quantity 1)).1
          (decs ++ [⟨pid, trimStr it.color, trimStr it.size,
            jsOr it.quantity 1⟩])
        cases hrec : stockLoop (decrementStock db pid (trimStr it.color)
            (trimStr it.size) (jsOr it.quantity 1)).1
          (decs ++ [⟨pid, trimStr it.color, trimStr it.size,
            jsOr it.quantity 1⟩]) rest with
        | ok ps2 proc2 tr2 =>
          rw [hrec] at hbranch
          refine ⟨?_, ?_, ?_⟩
          · rcases ih2.1 with ⟨r0, hr0⟩
            rw [hrec] at hr0
            simp only [StockRes.trace] at hr0
            refine ⟨r0, ?_⟩
            rw [hpd, hbranch]
            simp only [StockRes.trace, List.map_cons, List.cons_append]
            rw [hr0]
          · intro ps proc tr h
            rw [hbranch] at h
            cases h
            have := ih2.2.1 ps2 proc2 tr2 hrec
            constructor
            · rw [hpd]
              simp only [List.map_cons]
              rw [this.1]
            · intro a ha
              rcases List.mem_cons.mp ha with rfl | ha
              · rfl
              · exact this.2 a ha
          · intro ps msg tr h
            rw [hbranch] at h
            simp at h
        | fail ps2 msg2 tr2 =>
          rw [hrec] at hbranch
          refine ⟨?_, ?_, ?_⟩
          · rcases ih2.1 with ⟨r0, hr0⟩
            rw [hrec] at hr0
            simp only [StockRes.trace] at hr0
            refine ⟨r0, ?_⟩
            rw [hpd, hbranch]
            simp only [StockRes.trace, List.map_cons, List.cons_append]
            rw [hr0]
          · intro ps proc tr h
            rw [hbranch] at h
            simp at h
          · intro ps msg tr h
            rw [hbranch] at h
            cases h
            have := ih2.2.2 ps2 msg2 tr2 hrec
            have hne : tr2 ≠ [] := by
              intro hnil
              rw [hnil] at this
              simp at this
            cases tr2 with
            | nil => exact absurd rfl hne
            | cons y ys =>
              constructor
              · intro a ha
                rw [List.dropLast_cons₂] at ha
                rcases List.mem_cons.mp ha with rfl | ha
                · rfl
                · exact this.1 a ha
              · rw [List.getLast?_cons_cons]
                exact this.2
      · have hres : stockLoop db decs (it :: rest) =
            .fail (rollback db decs)
              (stockFailMsg pid (trimStr it.color) (trimStr it.size))
              [(⟨pid, trimStr it.color, trimStr it.size,
                jsOr it.quantity 1⟩, false)] := by
          simp only [stockLoop, hip]
          rw [if_neg hok]
        refine ⟨?_, ?_, ?_⟩
        · refine ⟨productDecs rest, ?_⟩
          rw [hpd, hres]
          simp [StockRes.trace]
        · intro ps proc tr h
          rw [hres] at h
          simp at h
        · intro ps msg tr h
          rw [hres] at h
          cases h
          exact ⟨by intro a ha; simp at ha, rfl⟩

/-- Witness for C6: for the two-item order whose second decrement fails,
the trace is the first item's successful update followed by the second's
failed one. -/
theorem stockLoop_per_item_conditional_witness :
    (stockLoop stAB.products [] [itA2, itB2]).trace.map Prod.fst =
        [⟨1, "red", "M", 2⟩, ⟨2, "blue", "M", 2⟩] ∧
    (∀ a ∈ (stockLoop stAB.products [] [itA2, itB2]).trace.dropLast,
      a.2 = true) ∧
    ((stockLoop stAB.products [] [itA2, itB2]).trace.getLast?.map
      Prod.snd) = some false := by
  have h := (stockLoop_per_item_conditional [itA2, itB2]
    stAB.products []).2.2 stAB.products
    (stockFailMsg 2 "blue" "M")
    [(⟨1, "red", "M", 2⟩, true), (⟨2, "blue", "M", 2⟩, false)] (by decide)
  exact ⟨by decide, by
    intro a ha
    revert ha
    have htr : (stockLoop stAB.products [] [itA2, itB2]).trace =
        [(⟨1, "red", "M", 2⟩, true), (⟨2, "blue", "M", 2⟩, false)] := by
      decide
    rw [htr]
    intro ha
    simp at ha
    rw [ha], by decide⟩

/-- Counterexample to C10 as stated: `addToCart` pushes a brand-new item
with the client-provided quantity unclamped, so a stored cart can hold an
item with quantity 0 after a cart operation. -/
theorem cart_quantity_invariant_counterexample :
    addToCart [prodA] [] 1 "red" "M" 0 =
      some [⟨1, "red", "M", 0⟩] ∧
    ¬ (∀ i ∈ [(⟨1, "red", "M", 0⟩ : CartItem)], 1 ≤ i.quantity) :=
  ⟨by decide, by decide⟩

/-- **C10 (amended).** `addToCart` clamps the merged quantity of an
existing item to at least 1 (for any request quantity), but stores a
brand-new item's quantity as given, so the ≥ 1 invariant is preserved by
`addToCart` only when a brand-new item's quantity is at least 1;
`updateCartItem` removes the item when the requested quantity is ≤ 0,
otherwise clamps it to at least 1 (so it always preserves the invariant),
and rejects out-of-range indices with HTTP 400. -/
theorem cart_quantity_invariant_amended :
    (∀ (products : List Product) (cart : List CartItem) (productId : Nat)
      (color size : String) (quantity : ℚ) (cart' : List CartItem),
      addToCart products cart productId color size quantity = some cart' →
      (∀ i ∈ cart, 1 ≤ i.quantity) → 1 ≤ quantity →
      ∀ i ∈ cart', 1 ≤ i.quantity)
    ∧ (∀ (products : List Product) (cart : List CartItem) (productId : Nat)
        (color size : String) (quantity : ℚ) (cart' : List CartItem),
        addToCart products cart productId color size quantity = some cart' →
        (∃ i ∈ cart, (i.product == productId && i.color == color &&
          i.size == size) = true) →
        (∀ i ∈ cart, 1 ≤ i.quantity) →
        ∀ i ∈ cart', 1 ≤ i.quantity)
    ∧ (∀ (items : List CartItem) (idx : Int) (q : ℚ)
        (items' : List CartItem),
        (∀ i ∈ items, 1 ≤ i.quantity) →
        updateCartItem items idx q = .updated items' →
        ∀ i ∈ items', 1 ≤ i.quantity)
    ∧ (∀ (items : List CartItem) (idx : Int) (q : ℚ),
        (idx < 0 ∨ (items.length : Int) ≤ idx) →
        updateCartItem items idx q = .badIndex) := by
  refine ⟨?_, ?_, ?_, ?_⟩
  · intro products cart productId color size quantity cart' h hcart hq
    unfold addToCart at h
    split at h
    · exact absurd h (by simp)
    · rw [Option.some.injEq] at h
      subst h
      cases hu : updateFirst (fun i => i.product == productId &&
          i.color == color && i.size == size)
          (fun i => { i with quantity := max 1 (addQ i.quantity quantity) })
          cart with
      | none =>
        intro i hi
        rw [Option.getD_none] at hi
        rcases List.mem_append.mp hi with hi | hi
        · exact hcart i hi
        · rw [List.mem_singleton] at hi
          subst hi
          exact hq
      | some merged =>
        intro i hi
        rw [Option.getD_some] at hi
        exact updateFirst_preserve (fun (x : CartItem) => 1 ≤ x.quantity)
          (fun _ _ _ => le_max_left 1 _) hu hcart i hi
  · intro products cart productId color size quantity cart' h hex hcart
    unfold addToCart at h
    split at h
    · exact absurd h (by simp)
    · rw [Option.some.injEq] at h
      subst h
      have hsome : (updateFirst (fun i => i.product == productId &&
          i.color == color && i.size == size)
          (fun i => { i with quantity := max 1 (addQ i.quantity quantity) })
          cart).isSome := by
        rw [updateFirst_isSome, List.any_eq_true]
        rcases hex with ⟨i, hi, hp⟩
        exact ⟨i, hi, hp⟩
      rcases Option.isSome_iff_exists.mp hsome with ⟨merged, hm⟩
      intro i hi
      rw [hm, Option.getD_some] at hi
      exact updateFirst_preserve (fun (x : CartItem) => 1 ≤ x.quantity)
        (fun _ _ _ => le_max_left 1 _) hm hcart i hi
  · intro items idx q items' hinv h
    unfold updateCartItem at h
    split at h
    · exact absurd h (by simp)
    · split at h
      · rw [CartRes.updated.injEq] at h
        subst h
        intro i hi
        exact hinv i (List.mem_of_mem_eraseIdx hi)
      · split at h
        · exact absurd h (by simp)
        next item hget =>
          rw [CartRes.updated.injEq] at h
          subst h
          intro i hi
          rcases List.mem_or_eq_of_mem_set hi with hi | rfl
          · exact hinv i hi
          · exact le_max_left 1 q
  · intro items idx q h
    unfold updateCartItem
    rw [if_pos h]

/-- Witness for C10 (amended): merging a request for −5 more of an item
already in the cart clamps the merged quantity to 1, and an out-of-range
index is rejected. -/
theorem cart_quantity_invariant_amended_witness :
    (∀ i ∈ (addToCart [prodA] [⟨1, "red", "M", 2⟩] 1 "red" "M"
        (-5)).getD [], 1 ≤ i.quantity) ∧
    updateCartItem [⟨1, "red", "M", 2⟩] 3 5 = .badIndex := by
  constructor
  · have h := cart_quantity_invariant_amended.2.1 [prodA]
      [⟨1, "red", "M", 2⟩] 1 "red" "M" (-5) [⟨1, "red", "M", 1⟩]
      (by decide) ⟨⟨1, "red", "M", 2⟩, by decide, by decide⟩ (by decide)
    intro i hi
    refine h i ?_
    revert hi
    have : (addToCart [prodA] [⟨1, "red", "M", 2⟩] 1 "red" "M"
        (-5)).getD [] = [⟨1, "red", "M", 1⟩] := by decide
    rw [this]
    exact fun hi => hi
  · exact cart_quantity_invariant_amended.2.2.2 [⟨1, "red", "M", 2⟩] 3 5
      (Or.inr (by decide))

theorem runAlone_rolling (toUndo : List Dec) :
    ∀ (db : List Product) (pending : List OrderItem) (dec : List Dec),
      runAlone db ⟨pending, dec, toUndo, .rolling⟩ (toUndo.length + 1) =
        (rollback db toUndo, ⟨pending, dec, [], .aborted⟩) := by
  induction toUndo with
  | nil => intro db pending dec; rfl
  | cons d ds ih =>
    intro db pending dec
    show runAlone db ⟨pending, dec, d :: ds, .rolling⟩ (ds.length + 1 + 1) =
      (rollback db (d :: ds), ⟨pending, dec, [], .aborted⟩)
    rw [runAlone]
    simp only [threadStep]
    exact ih (incrementStock db d.prodId d.color d.size d.qty).1 pending dec

/-- Running one stock phase alone, one atomic update per step, reaches the
same product collection as the (sequential) stock loop, committing exactly
when the loop succeeds. -/
theorem runAlone_stockLoop (items : List OrderItem) :
    ∀ (db : List Product) (decs : List Dec), ∃ (n : Nat) (t' : Thread),
      runAlone db ⟨items, decs, [], .running⟩ n =
        ((stockLoop db decs items).products, t') ∧
      (t'.phase = .committed ∨ t'.phase = .aborted) ∧
      (t'.phase = .committed ↔
        ∃ ps proc tr, stockLoop db decs items = .ok ps proc tr) := by
  induction items with
  | nil =>
    intro db decs
    refine ⟨1, ⟨[], decs, [], .committed⟩, rfl, Or.inl rfl, ?_⟩
    exact ⟨fun _ => ⟨db, [], [], rfl⟩, fun _ => rfl⟩
  | cons it rest ih =>
    intro db decs
    cases hip : it.product with
    | none =>
      rcases ih db decs with ⟨n, t', h1, h2, h3⟩
      have hprod : (stockLoop db decs (it :: rest)).products =
          (stockLoop db decs rest).products := by
        simp only [stockLoop, hip]
        cases stockLoop db decs rest <;> rfl
      have hiff : (∃ ps proc tr,
          stockLoop db decs (it :: rest) = .ok ps proc tr) ↔
          ∃ ps proc tr, stockLoop db decs rest = .ok ps proc tr := by
        simp only [stockLoop, hip]
        cases stockLoop db decs rest <;> simp
      refine ⟨n + 1, t', ?_, h2, h3.trans hiff.symm⟩
      show runAlone (threadStep db ⟨it :: rest, decs, [], .running⟩).1
        (threadStep db ⟨it :: rest, decs, [], .running⟩).2 n = _
      simp only [threadStep, hip]
      rw [hprod]
      exact h1
    | some pid =>
      by_cases hok : (decrementStock db pid (trimStr it.color)
          (trimStr it.size) (jsOr it.quantity 1)).2 &&
          jsOr it.quantity 1 != 0
      · rcases ih (decrementStock db pid (trimStr it.color)
            (trimStr it.size) (jsOr it.quantity 1)).1
          (decs ++ [⟨pid, trimStr it.color, trimStr it.size,
            jsOr it.quantity 1⟩]) with ⟨n, t', h1, h2, h3⟩
        have hprod : (stockLoop db decs (it :: rest)).products =
            (stockLoop (decrementStock db pid (trimStr it.color)
                (trimStr it.size) (jsOr it.quantity 1)).1
              (decs ++ [⟨pid, trimStr it.color, trimStr it.size,
                jsOr it.quantity 1⟩]) rest).products := by
          simp only [stockLoop, hip]
          rw [if_pos hok]
          cases stockLoop (decrementStock db pid (trimStr it.color)
              (trimStr it.size) (jsOr it.quantity 1)).1
            (decs ++ [⟨pid, trimStr it.color, trimStr it.size,
              jsOr it.quantity 1⟩]) rest <;> rfl
        have hiff : (∃ ps proc tr,
            stockLoop db decs (it :: rest) = .ok ps proc tr) ↔
            ∃ ps proc tr, stockLoop (decrementStock db pid (trimStr it.color)
                (trimStr it.size) (jsOr it.quantity 1)).1
              (decs ++ [⟨pid, trimStr it.color, trimStr it.size,
                jsOr it.quantity 1⟩]) rest = .ok ps proc tr := by
          simp only [stockLoop, hip]
          rw [if_pos hok]
          cases stockLoop (decrementStock db pid (trimStr it.color)
              (trimStr it.size) (jsOr it.quantity 1)).1
            (decs ++ [⟨pid, trimStr it.color, trimStr it.size,
              jsOr it.quantity 1⟩]) rest <;> simp
        refine ⟨n + 1, t', ?_, h2, h3.trans hiff.symm⟩
        show runAlone (threadStep db ⟨it :: rest, decs, [], .running⟩).1
          (threadStep db ⟨it :: rest, decs, [], .running⟩).2 n = _
        simp only [threadStep, hip]
        rw [if_pos hok, hprod]
        exact h1
      · refine ⟨decs.length + 2, ⟨[], decs, [], .aborted⟩, ?_, Or.inr rfl,
          ?_⟩
        · have hfail : (stockLoop db decs (it :: rest)).products =
              rollback db decs := by
            simp only [stockLoop, hip]
            rw [if_neg hok]
            rfl
          show runAlone (threadStep db ⟨it :: rest, decs, [], .running⟩).1
            (threadStep db ⟨it :: rest, decs, [], .running⟩).2
            (decs.length + 1) = _
          simp only [threadStep, hip]
          rw [if_neg hok, hfail]
          exact runAlone_rolling decs db [] decs
        · constructor
          · intro hcon
            exact absurd hcon (by simp)
          · rintro ⟨ps, proc, tr, hcon⟩
            rw [stockLoop, hip] at hcon
            simp only at hcon
            rw [if_neg hok] at hcon
            exact absurd hcon (by simp)

/-- **C8.** The order/stock flow relies only on per-document atomicity:
viewing each `updateOne` of the stock phase as one atomic step, a thread
run alone reproduces exactly the sequential stock loop (first conjunct),
and the steps of two concurrent `createOrder` stock phases may interleave
arbitrarily with no coordination excluding any schedule — concretely, with
one unit of each of two products, two opposite-order two-item orders both
abort under an alternating schedule (restoring all stock), while under
either serial schedule one of them commits; the interleaved outcome differs
from every serial one, which no cross-document transaction or lock would
allow. -/
theorem stock_phase_interleaving :
    (∀ (items : List OrderItem) (db : List Product),
      ∃ (n : Nat) (t' : Thread),
        runAlone db (mkThread items) n =
          ((stockLoop db [] items).products, t') ∧
        (t'.phase = .committed ∨ t'.phase = .aborted) ∧
        (t'.phase = .committed ↔
          ∃ ps proc tr, stockLoop db [] items = .ok ps proc tr))
    ∧ (runSched db8 tO1 tO2 schedI).2.1.phase = .aborted
    ∧ (runSched db8 tO1 tO2 schedI).2.2.phase = .aborted
    ∧ (runSched db8 tO1 tO2 schedI).1 = db8
    ∧ (runSched db8 tO1 tO2 schedS12).2.1.phase = .committed
    ∧ (runSched db8 tO1 tO2 schedS12).2.2.phase = .aborted
    ∧ (runSched db8 tO1 tO2 schedS21).2.1.phase = .aborted
    ∧ (runSched db8 tO1 tO2 schedS21).2.2.phase = .committed :=
  ⟨fun items db => runAlone_stockLoop items db [], by decide, by decide,
    by decide, by decide, by decide, by decide, by decide⟩

end PX39
